import Mathlib

/-! Notes service (`main.go`): store, handlers and their contracts.

A shallow embedding of the in-memory note-taking HTTP service.

* The three package-level slices `users`, `notes`, `sessions` become the fields of `Store`.
* A handler is a function of the store and of the outcome of `json.Decode` on the request
  body: the decoded fields together with an optional decode error (`Option String`, the
  error's message).  It returns the new store and the HTTP response.
* `uint32` values are natural numbers; the conversion `uint32(len(xs) + 1)` is `% 2 ^ 32`.
  `len` itself is a Go `int` that cannot overflow for a slice that fits in memory, so
  `strconv.Itoa(len(sessions) + 1)` is the decimal string `Nat.repr` of the exact length + 1.
* Handlers are executed one at a time (each call runs to completion on the store), except
  in the statement-level model of `signup` served by several goroutines (`poolRun`).
-/

set_option linter.dupNamespace false

namespace NotesApp

/-! ## Data model -/

/-- Conversion `uint32(n)` of a non-negative Go `int`. -/
def uint32 (n : Nat) : Nat := n % 2 ^ 32

/-- Go `type User struct`. -/
structure User where
  ID : Nat
  Name : String
  Email : String
  Password : String
deriving DecidableEq

/-- Go `type Note struct`. -/
structure Note where
  ID : Nat
  Note : String
  UserID : Nat
deriving DecidableEq

/-- Go `type Session struct`. -/
structure Session where
  ID : String
  UserID : Nat
  LoggedIn : Bool
deriving DecidableEq

/-- The package-level variables `users`, `notes`, `sessions`. -/
structure Store where
  users : List User
  notes : List Note
  sessions : List Session
deriving DecidableEq

/-- The store at process start: all three slices are nil. -/
def Store.empty : Store := Store.mk [] [] []

/-- What a handler writes to the `http.ResponseWriter`. -/
inductive Response where
  /-- Call `http.Error(w, msg, code)`. -/
  | error (code : Nat) (msg : String)
  /-- Call `json.NewEncoder(w).Encode(http.StatusOK)`: status 200, body the number `v`. -/
  | status (v : Nat)
  /-- Login success: status 200, body carrying `sid`. -/
  | sid (sessionID : String)
  /-- List success: status 200, body carrying `notes` (a fresh, non-nil slice). -/
  | notes (userNotes : List Note)
  /-- Create success: status 200, body carrying `id`. -/
  | id (newNoteID : Nat)
deriving DecidableEq

/-- HTTP status code of a response. -/
def Response.code : Response → Nat
  | Response.error c _ => c
  | Response.status _ => 200
  | Response.sid _ => 200
  | Response.notes _ => 200
  | Response.id _ => 200

/-- Decimal string of a non-negative `int`, as `strconv.Itoa`. -/
def itoa (n : Nat) : String := Nat.repr n

/-! ## Handlers -/

/-- Handler `signup`: `newUser` is the decoded body, `err` the decode error. -/
def signup (st : Store) (newUser : User) (err : Option String) : Store × Response :=
  if newUser.Name = "" ∧ newUser.Email = "" ∧ newUser.Password = "" then
    (st, Response.error 400 "Invalid request format")
  else
    match err with
    | some e => (st, Response.error 400 e)
    | none =>
      (Store.mk
        (st.users ++ [User.mk (uint32 (st.users.length + 1)) newUser.Name newUser.Email
          newUser.Password])
        st.notes st.sessions,
       Response.status 200)

/-- The user scan of `login`: the first user whose email and password both match, or the
zero value of `User` when the loop ends without a match. -/
def findUser : List User → String → String → User
  | [], _, _ => User.mk 0 "" "" ""
  | user :: rest, email, password =>
    if user.Email = email ∧ user.Password = password then user
    else findUser rest email password

/-- Handler `login`. -/
def login (st : Store) (email password : String) (err : Option String) : Store × Response :=
  if email = "" ∧ password = "" then
    (st, Response.error 400 "Invalid request format")
  else
    match err with
    | some e => (st, Response.error 400 e)
    | none =>
      let loggedInUser := findUser st.users email password
      if loggedInUser.ID = 0 then
        (st, Response.error 401 "Unauthorized")
      else
        let sessionID := itoa (st.sessions.length + 1)
        (Store.mk st.users st.notes (st.sessions ++ [Session.mk sessionID loggedInUser.ID true]),
         Response.sid sessionID)

/-- The session scan of `listNotes` and `createNote`: `(userID, sessionFound)` after the
loop, which stops at the first session whose id is `sid`. -/
def findSession : List Session → String → Nat × Bool
  | [], _ => (0, false)
  | session :: rest, sid =>
    if session.ID = sid then (session.UserID, true) else findSession rest sid

/-- The collection loop of `listNotes`: `userNotes` starts as `make([]Note, 0)` and every
note of `userID` is appended to it in store order. -/
def collectNotes (notes : List Note) (userID : Nat) : List Note :=
  notes.foldl (fun userNotes note => if note.UserID = userID then userNotes ++ [note]
    else userNotes) []

/-- Handler `listNotes`. -/
def listNotes (st : Store) (sid : String) (err : Option String) : Store × Response :=
  if sid = "" then
    (st, Response.error 400 "Invalid request format")
  else
    match err with
    | some e => (st, Response.error 400 e)
    | none =>
      match findSession st.sessions sid with
      | (_, false) => (st, Response.error 401 "Unauthorized")
      | (userID, true) => (st, Response.notes (collectNotes st.notes userID))

/-- Handler `createNote`. -/
def createNote (st : Store) (sid note : String) (err : Option String) : Store × Response :=
  if sid = "" then
    (st, Response.error 400 "Invalid request format")
  else
    match err with
    | some e => (st, Response.error 400 e)
    | none =>
      match findSession st.sessions sid with
      | (_, false) => (st, Response.error 401 "Unauthorized")
      | (userID, true) =>
        let newNoteID := uint32 (st.notes.length + 1)
        (Store.mk st.users (st.notes ++ [Note.mk newNoteID note userID]) st.sessions,
         Response.id newNoteID)

/-- The inner loop of `deleteNote`, search part: index `j` of the first note with the
given id and owner, if any. -/
def findNote : List Note → Nat → Nat → Option Nat
  | [], _, _ => none
  | note :: rest, id, userID =>
    if note.ID = id ∧ note.UserID = userID then some 0
    else (findNote rest id userID).map (fun j => j + 1)

/-- The inner loop of `deleteNote`: at the first matching index `j` the slice becomes
`append(notes[:j], notes[j+1:]...)` and the loop breaks; without a match it is untouched. -/
def removeNote (notes : List Note) (id userID : Nat) : List Note :=
  match findNote notes id userID with
  | some j => notes.take j ++ notes.drop (j + 1)
  | none => notes

/-- The outer loop of `deleteNote` over `sessions`, carrying `notes` and `sessionFound`.
There is no `break`: every session whose id is `sid` runs the inner loop. -/
def deleteScan : List Session → String → Nat → List Note → Bool → List Note × Bool
  | [], _, _, notes, sessionFound => (notes, sessionFound)
  | session :: rest, sid, id, notes, sessionFound =>
    if session.ID = sid then deleteScan rest sid id (removeNote notes id session.UserID) true
    else deleteScan rest sid id notes sessionFound

/-- Handler `deleteNote`. -/
def deleteNote (st : Store) (sid : String) (id : Nat) (err : Option String) :
    Store × Response :=
  if sid = "" ∧ id = 0 then
    (st, Response.error 400 "Invalid request format")
  else
    match err with
    | some e => (st, Response.error 400 e)
    | none =>
      match deleteScan st.sessions sid id st.notes false with
      | (notes, false) => (Store.mk st.users notes st.sessions, Response.error 401 "Unauthorized")
      | (notes, true) => (Store.mk st.users notes st.sessions, Response.status 200)

/-! ## Executions -/

/-- One call to one of the five handlers, with the outcome of decoding its body.  A `uint32`
field of a body is a natural number; the decoder only delivers values below `2 ^ 32`, and
the handlers do not depend on that: `signup` overwrites the decoded id, and `deleteNote`
only compares the decoded id with stored ones. -/
inductive Request where
  | signup (newUser : User) (err : Option String)
  | login (email password : String) (err : Option String)
  | listNotes (sid : String) (err : Option String)
  | createNote (sid note : String) (err : Option String)
  | deleteNote (sid : String) (id : Nat) (err : Option String)
deriving DecidableEq

/-- Dispatch of a request to its handler. -/
def step (st : Store) : Request → Store × Response
  | Request.signup newUser err => signup st newUser err
  | Request.login email password err => login st email password err
  | Request.listNotes sid err => listNotes st sid err
  | Request.createNote sid note err => createNote st sid note err
  | Request.deleteNote sid id err => deleteNote st sid id err

/-- Store after serving a sequence of requests. -/
def run (st : Store) (reqs : List Request) : Store :=
  reqs.foldl (fun s r => (step s r).1) st

/-- Responses produced while serving a sequence of requests, in order. -/
def responses : Store → List Request → List Response
  | _, [] => []
  | st, r :: reqs => (step st r).2 :: responses (step st r).1 reqs

/-- Stores the process can be in: those reached from the empty store by handler calls. -/
def Reachable (st : Store) : Prop := ∃ reqs : List Request, run Store.empty reqs = st

/-- Session ids follow the issue order: position `i` holds the id `itoa (i + 1)`. -/
def SessionsNumbered (sessions : List Session) : Prop :=
  sessions.map Session.ID = (List.range sessions.length).map (fun i => itoa (i + 1))

/-- User ids follow the signup order: position `i` holds the id `uint32 (i + 1)`. -/
def UsersNumbered (users : List User) : Prop :=
  users.map User.ID = (List.range users.length).map (fun i => uint32 (i + 1))

/-! ## Decimal value of a digit string -/

/-- Value of a string of decimal digits, most significant first. -/
def digitsValue (cs : List Char) : Nat :=
  cs.foldl (fun acc c => acc * 10 + (c.toNat - 48)) 0

/-! ## Sample stores and requests -/

/-- Store after one signup, one login and one note: a small reachable store. -/
def demoStore : Store :=
  Store.mk [User.mk 1 "a" "a@x.com" "p"] [Note.mk 1 "hi" 1] [Session.mk "1" 1 true]

/-- Requests that lead from the empty store to `demoStore`. -/
def demoRequests : List Request :=
  [Request.signup (User.mk 0 "a" "a@x.com" "p") none,
   Request.login "a@x.com" "p" none,
   Request.createNote "1" "hi" none]

/-- Store with two users, one session each, and one note each. -/
def twoUserStore : Store :=
  Store.mk [User.mk 1 "a" "a@x.com" "p", User.mk 2 "b" "b@x.com" "q"]
    [Note.mk 1 "hi" 1, Note.mk 2 "yo" 2]
    [Session.mk "1" 1 true, Session.mk "2" 2 true]

/-- Requests that lead from the empty store to `twoUserStore`. -/
def twoUserRequests : List Request :=
  [Request.signup (User.mk 0 "a" "a@x.com" "p") none,
   Request.signup (User.mk 0 "b" "b@x.com" "q") none,
   Request.login "a@x.com" "p" none,
   Request.login "b@x.com" "q" none,
   Request.createNote "1" "hi" none,
   Request.createNote "2" "yo" none]

/-- Store after one signup. -/
def oneUserStore : Store := Store.mk [User.mk 1 "a" "a@x.com" "p"] [] []

/-- Store after one signup and one login. -/
def loggedInStore : Store :=
  Store.mk [User.mk 1 "a" "a@x.com" "p"] [] [Session.mk "1" 1 true]

/-- Further traffic after the first login: a second account, more logins, notes, a delete. -/
def laterRequests : List Request :=
  [Request.signup (User.mk 0 "b" "b@x.com" "q") none,
   Request.login "b@x.com" "q" none,
   Request.login "a@x.com" "p" none,
   Request.createNote "1" "hi" none,
   Request.createNote "2" "yo" none,
   Request.deleteNote "3" 1 none]

/-- Store reached from `loggedInStore` by `n` successful note creations. -/
def storeWithNotes (n : Nat) : Store :=
  run loggedInStore (List.replicate n (Request.createNote "1" "hi" none))

/-- Store reached from the empty store by `n` signups of the same account data. -/
def storeWithUsers (n : Nat) : Store :=
  run Store.empty (List.replicate n (Request.signup (User.mk 0 "a" "a@x.com" "p") none))

/-- Store `storeWithUsers n` after one more signup, with fresh credentials. -/
def storeWithLastUser (n : Nat) : Store :=
  (signup (storeWithUsers n) (User.mk 0 "z" "z@x.com" "q") none).1

/-- Note ids follow the creation order: position `i` holds the id `uint32 (i + 1)`. -/
def NotesNumbered (notes : List Note) : Prop :=
  notes.map Note.ID = (List.range notes.length).map (fun i => uint32 (i + 1))

/-- Whether serving `r` in `st` is a `deleteNote` call that takes a note out of the store. -/
def removesNote (st : Store) : Request → Bool
  | Request.deleteNote sid id err => decide ((deleteNote st sid id err).1.notes ≠ st.notes)
  | _ => false

/-- Whether, while serving `reqs` from `st`, no `deleteNote` call removes a note. -/
def neverRemoves : Store → List Request → Bool
  | _, [] => true
  | st, r :: reqs => !removesNote st r && neverRemoves (step st r).1 reqs

/-- One signup, one login, two notes, the first note deleted, a third note created. -/
def reuseRequests : List Request :=
  [Request.signup (User.mk 0 "a" "a@x.com" "p") none,
   Request.login "a@x.com" "p" none,
   Request.createNote "1" "x" none,
   Request.createNote "1" "y" none,
   Request.deleteNote "1" 1 none,
   Request.createNote "1" "z" none]

/-- One signup, one login, then `n` note creations: no delete at all. -/
def notesRequests (n : Nat) : List Request :=
  [Request.signup (User.mk 0 "a" "a@x.com" "p") none, Request.login "a@x.com" "p" none]
    ++ List.replicate n (Request.createNote "1" "hi" none)

/-- Referential integrity of a store: every session is owned by the id of a stored user,
and every note by the owner id of a stored session. -/
def Referential (st : Store) : Prop :=
  (∀ sess ∈ st.sessions, ∃ user ∈ st.users, user.ID = sess.UserID) ∧
  (∀ note ∈ st.notes, ∃ sess ∈ st.sessions, sess.UserID = note.UserID)

/-! ## Goroutines serving `signup`

Statement-level model of the accepted path of `signup` (the four statements after the two
validation checks), for several requests served at once: each goroutine has its own
`newUser`, all share the store and `userMutex`, and a schedule picks which goroutine runs
its next statement. -/

/-- The statements of `signup` after the validation checks, in source order. -/
inductive SignupStmt where
  /-- Statement `newUser.ID = uint32(len(users) + 1)`. -/
  | assignID
  /-- Statement `userMutex.Lock()`. -/
  | lock
  /-- Statement `users = append(users, newUser)`. -/
  | appendUser
  /-- Statement `userMutex.Unlock()`. -/
  | unlock
deriving DecidableEq

/-- The accepted path of `signup`, statement by statement. -/
def signupBody : List SignupStmt :=
  [SignupStmt.assignID, SignupStmt.lock, SignupStmt.appendUser, SignupStmt.unlock]

/-- Whether a statement reads or writes the `users` slice. -/
def SignupStmt.touchesUsers : SignupStmt → Bool
  | SignupStmt.assignID => true
  | SignupStmt.lock => false
  | SignupStmt.appendUser => true
  | SignupStmt.unlock => false

/-- Whether every statement of a body that touches `users` runs while the goroutine holds
`userMutex`; `held` says whether it holds the mutex on entry. -/
def guarded : Bool → List SignupStmt → Bool
  | _, [] => true
  | _, SignupStmt.lock :: rest => guarded true rest
  | _, SignupStmt.unlock :: rest => guarded false rest
  | held, stmt :: rest => (!stmt.touchesUsers || held) && guarded held rest

/-- State shared by the goroutines: the store and whether `userMutex` is locked. -/
structure Shared where
  store : Store
  userMutex : Bool
deriving DecidableEq

/-- A goroutine serving `signup`: its local `newUser` and the statements still to run. -/
structure SignupThread where
  newUser : User
  rest : List SignupStmt
deriving DecidableEq

/-- One statement of `signup` on the shared state and the local `newUser`; `none` when the
goroutine is blocked in `Lock`. -/
def execStmt (sh : Shared) (newUser : User) : SignupStmt → Option (Shared × User)
  | SignupStmt.assignID =>
    some (sh, User.mk (uint32 (sh.store.users.length + 1)) newUser.Name newUser.Email
      newUser.Password)
  | SignupStmt.lock =>
    if sh.userMutex then none else some (Shared.mk sh.store true, newUser)
  | SignupStmt.appendUser =>
    some (Shared.mk (Store.mk (sh.store.users ++ [newUser]) sh.store.notes sh.store.sessions)
      sh.userMutex, newUser)
  | SignupStmt.unlock => some (Shared.mk sh.store false, newUser)

/-- Goroutine `k` runs its next statement; nothing happens when it does not exist, has
finished or is blocked. -/
def poolStep (cfg : Shared × List SignupThread) (k : Nat) : Shared × List SignupThread :=
  match cfg.2[k]? with
  | none => cfg
  | some t =>
    match t.rest with
    | [] => cfg
    | stmt :: rest =>
      match execStmt cfg.1 t.newUser stmt with
      | none => cfg
      | some (sh, newUser) => (sh, cfg.2.set k (SignupThread.mk newUser rest))

/-- The goroutines run as the schedule says, one statement at a time. -/
def poolRun (cfg : Shared × List SignupThread) (schedule : List Nat) :
    Shared × List SignupThread :=
  schedule.foldl poolStep cfg

/-- Two accepted signup requests being served at once on the empty store. -/
def twoSignups : Shared × List SignupThread :=
  (Shared.mk Store.empty false,
   [SignupThread.mk (User.mk 0 "a" "a@x.com" "p") signupBody,
    SignupThread.mk (User.mk 0 "b" "b@x.com" "q") signupBody])

/-! ## Decimal strings: `itoa` is injective and never empty -/

theorem digitChar_value (k : Nat) (hk : k < 10) : (Nat.digitChar k).toNat - 48 = k := by
  interval_cases k <;> decide

theorem toDigitsCore_value (fuel : Nat) : ∀ (n : Nat) (ds : List Char), n < fuel →
    (Nat.toDigitsCore 10 fuel n ds).foldl (fun acc c => acc * 10 + (c.toNat - 48)) 0
      = ds.foldl (fun acc c => acc * 10 + (c.toNat - 48)) n := by
  induction fuel with
  | zero => intro n ds h; omega
  | succ fuel ih =>
    intro n ds h
    have hd : (Nat.digitChar (n % 10)).toNat - 48 = n % 10 :=
      digitChar_value (n % 10) (Nat.mod_lt n (by decide))
    simp only [Nat.toDigitsCore]
    split
    · rename_i h0
      have hn : n % 10 = n := by omega
      simp only [List.foldl_cons, hd, Nat.zero_mul, Nat.zero_add]
      rw [hn]
    · rw [ih (n / 10) _ (by omega)]
      simp only [List.foldl_cons, hd]
      congr 1
      omega

theorem digitsValue_itoa (n : Nat) : digitsValue (itoa n).data = n := by
  unfold digitsValue itoa Nat.repr Nat.toDigits
  simp only [List.asString]
  rw [toDigitsCore_value (n + 1) n [] (Nat.lt_succ_self n)]
  rfl

theorem itoa_injective : Function.Injective itoa := by
  intro a b h
  have := congrArg (fun s => digitsValue s.data) h
  simpa only [digitsValue_itoa] using this

theorem itoa_ne_empty (n : Nat) : itoa n ≠ "" := by
  intro h
  have h0 : n = 0 := by
    have := congrArg (fun s => digitsValue s.data) h
    simpa only [digitsValue_itoa] using this
  subst h0
  exact absurd h (by decide)

/-! ## The loops as list operations -/

theorem collectNotes_foldl (notes : List Note) (userID : Nat) : ∀ acc : List Note,
    notes.foldl (fun userNotes note => if note.UserID = userID then userNotes ++ [note]
      else userNotes) acc = acc ++ notes.filter (fun note => decide (note.UserID = userID)) := by
  induction notes with
  | nil => intro acc; simp
  | cons note rest ih =>
    intro acc
    simp only [List.foldl_cons, ih]
    by_cases h : note.UserID = userID <;> simp [h, List.filter_cons]

theorem collectNotes_eq_filter (notes : List Note) (userID : Nat) :
    collectNotes notes userID = notes.filter (fun note => decide (note.UserID = userID)) := by
  simp [collectNotes, collectNotes_foldl]

theorem removeNote_nil (id userID : Nat) : removeNote [] id userID = [] := rfl

theorem removeNote_cons (note : Note) (rest : List Note) (id userID : Nat) :
    removeNote (note :: rest) id userID
      = if note.ID = id ∧ note.UserID = userID then rest
        else note :: removeNote rest id userID := by
  unfold removeNote
  simp only [findNote]
  split_ifs with h
  · simp
  · cases findNote rest id userID <;> simp

/-- Removing in `removeNote` is removing the first note with the given id and owner. -/
theorem removeNote_split (notes : List Note) (id userID : Nat) :
    ((∀ note ∈ notes, ¬ (note.ID = id ∧ note.UserID = userID)) ∧
        removeNote notes id userID = notes) ∨
    (∃ before note after, notes = before ++ note :: after ∧
        (∀ x ∈ before, ¬ (x.ID = id ∧ x.UserID = userID)) ∧
        note.ID = id ∧ note.UserID = userID ∧
        removeNote notes id userID = before ++ after) := by
  induction notes with
  | nil => left; simp [removeNote_nil]
  | cons note rest ih =>
    rw [removeNote_cons]
    by_cases h : note.ID = id ∧ note.UserID = userID
    · right
      exact ⟨[], note, rest, by simp, by simp, h.1, h.2, by simp [h]⟩
    · rcases ih with ⟨hno, heq⟩ | ⟨before, x, after, hsplit, hbefore, hid, hown, heq⟩
      · left
        refine ⟨?_, by simp [h, heq]⟩
        intro y hy
        rcases List.mem_cons.mp hy with rfl | hy
        · exact h
        · exact hno y hy
      · right
        refine ⟨note :: before, x, after, by simp [hsplit], ?_, hid, hown, by simp [h, heq]⟩
        intro y hy
        rcases List.mem_cons.mp hy with rfl | hy
        · exact h
        · exact hbefore y hy

theorem removeNote_filter_other (notes : List Note) (id userID v : Nat) (hv : v ≠ userID) :
    (removeNote notes id userID).filter (fun note => decide (note.UserID = v))
      = notes.filter (fun note => decide (note.UserID = v)) := by
  induction notes with
  | nil => rfl
  | cons note rest ih =>
    rw [removeNote_cons]
    by_cases h : note.ID = id ∧ note.UserID = userID
    · have hne : ¬ note.UserID = v := fun hc => hv (hc.symm.trans h.2)
      rw [if_pos h, List.filter_cons, if_neg (by simpa using hne)]
    · simp only [h, if_false, List.filter_cons, ih]

theorem removeNote_length (notes : List Note) (id userID : Nat) :
    (removeNote notes id userID).length ≤ notes.length ∧
    notes.length ≤ (removeNote notes id userID).length + 1 := by
  rcases removeNote_split notes id userID with ⟨_, heq⟩ | ⟨b, x, a, hs, _, _, _, heq⟩
  · rw [heq]; omega
  · rw [heq, hs]; simp only [List.length_append, List.length_cons]; omega

/-! ## The session scans -/

theorem findSession_none (sessions : List Session) (sid : String)
    (h : ∀ sess ∈ sessions, sess.ID ≠ sid) : findSession sessions sid = (0, false) := by
  induction sessions with
  | nil => rfl
  | cons sess rest ih =>
    have h1 : sess.ID ≠ sid := h sess (List.mem_cons_self _ _)
    simp only [findSession, h1, if_false]
    exact ih (fun x hx => h x (List.mem_cons_of_mem _ hx))

theorem findSession_first (before : List Session) (sess : Session) (after : List Session)
    (hbefore : ∀ x ∈ before, x.ID ≠ sess.ID) :
    findSession (before ++ sess :: after) sess.ID = (sess.UserID, true) := by
  induction before with
  | nil => simp [findSession]
  | cons x rest ih =>
    have h1 : x.ID ≠ sess.ID := hbefore x (List.mem_cons_self _ _)
    simp only [List.cons_append, findSession, h1, if_false]
    exact ih (fun y hy => hbefore y (List.mem_cons_of_mem _ hy))

theorem findSession_found (sessions : List Session) (sid : String) (u : Nat)
    (h : findSession sessions sid = (u, true)) :
    ∃ before sess after, sessions = before ++ sess :: after ∧
      (∀ x ∈ before, x.ID ≠ sid) ∧ sess.ID = sid ∧ sess.UserID = u := by
  induction sessions with
  | nil => simp [findSession] at h
  | cons x rest ih =>
    by_cases hx : x.ID = sid
    · simp only [findSession, hx, if_true, Prod.mk.injEq, and_true] at h
      exact ⟨[], x, rest, by simp, by simp, hx, h⟩
    · simp only [findSession, hx, if_false] at h
      obtain ⟨before, sess, after, hs, hb, hid, hu⟩ := ih h
      refine ⟨x :: before, sess, after, by simp [hs], ?_, hid, hu⟩
      intro y hy
      rcases List.mem_cons.mp hy with rfl | hy
      · exact hx
      · exact hb y hy

theorem findSession_cases (sessions : List Session) (sid : String) :
    ((∀ sess ∈ sessions, sess.ID ≠ sid) ∧ findSession sessions sid = (0, false)) ∨
    (∃ u, findSession sessions sid = (u, true)) := by
  induction sessions with
  | nil => left; simp [findSession]
  | cons x rest ih =>
    by_cases hx : x.ID = sid
    · right; exact ⟨x.UserID, by simp [findSession, hx]⟩
    · rcases ih with ⟨hno, heq⟩ | ⟨u, hu⟩
      · left
        refine ⟨?_, by simp [findSession, hx, heq]⟩
        intro y hy
        rcases List.mem_cons.mp hy with rfl | hy
        · exact hx
        · exact hno y hy
      · right; exact ⟨u, by simp [findSession, hx, hu]⟩

theorem findSession_append (sessions extra : List Session) (sid : String) (u : Nat)
    (h : findSession sessions sid = (u, true)) :
    findSession (sessions ++ extra) sid = (u, true) := by
  induction sessions with
  | nil => simp [findSession] at h
  | cons x rest ih =>
    by_cases hx : x.ID = sid
    · simpa [findSession, hx] using h
    · simp only [findSession, hx, if_false] at h
      simp only [List.cons_append, findSession, hx, if_false]
      exact ih h

theorem deleteScan_none (sessions : List Session) (sid : String) (id : Nat)
    (h : ∀ sess ∈ sessions, sess.ID ≠ sid) : ∀ (notes : List Note) (b : Bool),
    deleteScan sessions sid id notes b = (notes, b) := by
  induction sessions with
  | nil => intro notes b; rfl
  | cons sess rest ih =>
    intro notes b
    have h1 : sess.ID ≠ sid := h sess (List.mem_cons_self _ _)
    simp only [deleteScan, h1, if_false]
    exact ih (fun x hx => h x (List.mem_cons_of_mem _ hx)) notes b

/-- With pairwise distinct session ids the scan of `deleteNote` runs its inner loop once,
for the owner of the one session that matches. -/
theorem deleteScan_unique (sessions : List Session) (sid : String) (id : Nat)
    (hnodup : (sessions.map Session.ID).Nodup) (sess : Session) (hmem : sess ∈ sessions)
    (hid : sess.ID = sid) : ∀ (notes : List Note) (b : Bool),
    deleteScan sessions sid id notes b = (removeNote notes id sess.UserID, true) := by
  induction sessions with
  | nil => simp at hmem
  | cons x rest ih =>
    intro notes b
    simp only [List.map_cons, List.nodup_cons, List.mem_map, not_exists, not_and] at hnodup
    rcases List.mem_cons.mp hmem with rfl | hmem
    · simp only [deleteScan, hid, if_true]
      exact deleteScan_none rest sid id (fun y hy hc => hnodup.1 y hy (hc.trans hid.symm)) _ _
    · have hx : x.ID ≠ sid := fun hc => hnodup.1 sess hmem (hid.trans hc.symm)
      simp only [deleteScan, hx, if_false]
      exact ih hnodup.2 hmem notes b

/-! ## Executions and invariants -/

theorem run_nil (st : Store) : run st [] = st := rfl

theorem run_cons (st : Store) (r : Request) (reqs : List Request) :
    run st (r :: reqs) = run (step st r).1 reqs := rfl

theorem run_append (st : Store) (reqs more : List Request) :
    run st (reqs ++ more) = run (run st reqs) more := by
  simp [run, List.foldl_append]

theorem run_preserves {P : Store → Prop} (hstep : ∀ st r, P st → P (step st r).1) :
    ∀ (reqs : List Request) (st : Store), P st → P (run st reqs) := by
  intro reqs
  induction reqs with
  | nil => intro st h; exact h
  | cons r reqs ih => intro st h; exact ih _ (hstep st r h)

theorem reachable_induction {P : Store → Prop} (h0 : P Store.empty)
    (hstep : ∀ st r, P st → P (step st r).1) : ∀ st, Reachable st → P st := by
  rintro st ⟨reqs, rfl⟩
  exact run_preserves hstep reqs _ h0

theorem reachable_empty : Reachable Store.empty := ⟨[], rfl⟩

theorem reachable_run (st : Store) (h : Reachable st) (reqs : List Request) :
    Reachable (run st reqs) := by
  obtain ⟨pre, rfl⟩ := h
  exact ⟨pre ++ reqs, run_append _ _ _⟩

/-! ## Effect of each handler on the store -/

theorem signup_effect (st : Store) (newUser : User) (err : Option String) :
    (signup st newUser err).1 = st ∨
    (signup st newUser err).1 = Store.mk (st.users ++
      [User.mk (uint32 (st.users.length + 1)) newUser.Name newUser.Email newUser.Password])
      st.notes st.sessions := by
  unfold signup
  split
  · left; rfl
  · cases err
    · right; rfl
    · left; rfl

theorem login_effect (st : Store) (email password : String) (err : Option String) :
    (login st email password err).1 = st ∨
    (login st email password err).1 = Store.mk st.users st.notes (st.sessions ++
      [Session.mk (itoa (st.sessions.length + 1)) (findUser st.users email password).ID true]) := by
  unfold login
  split
  · left; rfl
  · cases err
    · simp only
      split
      · left; rfl
      · right; rfl
    · left; rfl

theorem listNotes_store (st : Store) (sid : String) (err : Option String) :
    (listNotes st sid err).1 = st := by
  unfold listNotes
  split
  · rfl
  · cases err
    · simp only
      split <;> rfl
    · rfl

theorem createNote_effect (st : Store) (sid note : String) (err : Option String) :
    (createNote st sid note err).1 = st ∨
    ∃ userID, (createNote st sid note err).1 = Store.mk st.users
      (st.notes ++ [Note.mk (uint32 (st.notes.length + 1)) note userID]) st.sessions := by
  unfold createNote
  split
  · left; rfl
  · cases err
    · simp only
      split
      · left; rfl
      · right; exact ⟨_, rfl⟩
    · left; rfl

theorem deleteNote_effect (st : Store) (sid : String) (id : Nat) (err : Option String) :
    (deleteNote st sid id err).1 = st ∨
    (deleteNote st sid id err).1
      = Store.mk st.users (deleteScan st.sessions sid id st.notes false).1 st.sessions := by
  unfold deleteNote
  split
  · left; rfl
  · cases err
    · simp only
      right
      split <;> simp_all
    · left; rfl

theorem step_users (st : Store) (r : Request) :
    (step st r).1.users = st.users ∨
    ∃ newUser : User, (step st r).1.users = st.users ++
      [User.mk (uint32 (st.users.length + 1)) newUser.Name newUser.Email newUser.Password] := by
  cases r with
  | signup newUser err =>
    rcases signup_effect st newUser err with h | h
    · left; simp [step, h]
    · right; exact ⟨newUser, by simp [step, h]⟩
  | login email password err =>
    left; rcases login_effect st email password err with h | h <;> simp [step, h]
  | listNotes sid err => left; simp [step, listNotes_store]
  | createNote sid note err =>
    left; rcases createNote_effect st sid note err with h | ⟨u, h⟩ <;> simp [step, h]
  | deleteNote sid id err =>
    left; rcases deleteNote_effect st sid id err with h | h <;> simp [step, h]

theorem step_sessions (st : Store) (r : Request) :
    (step st r).1.sessions = st.sessions ∨
    ∃ userID : Nat, (step st r).1.sessions = st.sessions ++
      [Session.mk (itoa (st.sessions.length + 1)) userID true] := by
  cases r with
  | signup newUser err =>
    left; rcases signup_effect st newUser err with h | h <;> simp [step, h]
  | login email password err =>
    rcases login_effect st email password err with h | h
    · left; simp [step, h]
    · right; exact ⟨(findUser st.users email password).ID, by simp [step, h]⟩
  | listNotes sid err => left; simp [step, listNotes_store]
  | createNote sid note err =>
    left; rcases createNote_effect st sid note err with h | ⟨u, h⟩ <;> simp [step, h]
  | deleteNote sid id err =>
    left; rcases deleteNote_effect st sid id err with h | h <;> simp [step, h]

/-! ## Numbering invariants -/

theorem sessionsNumbered_append (sessions : List Session) (h : SessionsNumbered sessions)
    (userID : Nat) (b : Bool) :
    SessionsNumbered (sessions ++ [Session.mk (itoa (sessions.length + 1)) userID b]) := by
  unfold SessionsNumbered at *
  simp [List.range_succ, h]

theorem usersNumbered_append (users : List User) (h : UsersNumbered users)
    (name email password : String) :
    UsersNumbered (users ++ [User.mk (uint32 (users.length + 1)) name email password]) := by
  unfold UsersNumbered at *
  simp [List.range_succ, h]

theorem reachable_sessionsNumbered (st : Store) (h : Reachable st) :
    SessionsNumbered st.sessions := by
  refine reachable_induction (P := fun st => SessionsNumbered st.sessions) ?_ ?_ st h
  · simp [SessionsNumbered, Store.empty]
  · intro st r ih
    rcases step_sessions st r with h | ⟨u, h⟩
    · simpa only [h] using ih
    · simpa only [h] using sessionsNumbered_append st.sessions ih u true

theorem reachable_usersNumbered (st : Store) (h : Reachable st) :
    UsersNumbered st.users := by
  refine reachable_induction (P := fun st => UsersNumbered st.users) ?_ ?_ st h
  · simp [UsersNumbered, Store.empty]
  · intro st r ih
    rcases step_users st r with h | ⟨u, h⟩
    · simpa only [h] using ih
    · simpa only [h] using usersNumbered_append st.users ih u.Name u.Email u.Password

theorem sessionsNumbered_nodup (sessions : List Session) (h : SessionsNumbered sessions) :
    (sessions.map Session.ID).Nodup := by
  rw [h]
  refine List.Nodup.map ?_ (List.nodup_range _)
  intro a b hab
  have := itoa_injective hab
  omega

theorem sessionsNumbered_ne_empty (sessions : List Session) (h : SessionsNumbered sessions)
    (sess : Session) (hmem : sess ∈ sessions) : sess.ID ≠ "" := by
  have hm : sess.ID ∈ sessions.map Session.ID := List.mem_map_of_mem _ hmem
  rw [h] at hm
  obtain ⟨i, _, hi⟩ := List.mem_map.mp hm
  rw [← hi]
  exact itoa_ne_empty _

theorem usersNumbered_id_ne_zero (users : List User) (h : UsersNumbered users)
    (hlen : users.length < 2 ^ 32) (user : User) (hmem : user ∈ users) : user.ID ≠ 0 := by
  have hm : user.ID ∈ users.map User.ID := List.mem_map_of_mem _ hmem
  rw [h] at hm
  obtain ⟨i, hi, hid⟩ := List.mem_map.mp hm
  rw [List.mem_range] at hi
  rw [← hid]
  unfold uint32
  rw [Nat.mod_eq_of_lt (by omega)]
  omega

/-! ## Handlers on stored sessions -/

theorem reachable_demoStore : Reachable demoStore := ⟨demoRequests, by decide⟩

theorem findSession_of_mem (sessions : List Session) (hnodup : (sessions.map Session.ID).Nodup)
    (sess : Session) (hmem : sess ∈ sessions) :
    findSession sessions sess.ID = (sess.UserID, true) := by
  rcases findSession_cases sessions sess.ID with ⟨hno, _⟩ | ⟨u, hu⟩
  · exact absurd rfl (hno sess hmem)
  · obtain ⟨before, x, after, hs, _, hid, hux⟩ := findSession_found sessions sess.ID u hu
    have hx : x ∈ sessions := by rw [hs]; simp
    have : x = sess := List.inj_on_of_nodup_map hnodup hx hmem hid
    rw [hu, ← hux, this]

/-- In a reachable store a well-formed delete with the id of a stored session removes, from
the notes, the first note with the requested id owned by the session's user. -/
theorem deleteNote_of_session (st : Store) (hst : Reachable st) (sess : Session)
    (hmem : sess ∈ st.sessions) (n : Nat) :
    deleteNote st sess.ID n none
      = (Store.mk st.users (removeNote st.notes n sess.UserID) st.sessions,
         Response.status 200) := by
  have hnum := reachable_sessionsNumbered st hst
  have hne : sess.ID ≠ "" := sessionsNumbered_ne_empty _ hnum sess hmem
  have hscan := deleteScan_unique st.sessions sess.ID n (sessionsNumbered_nodup _ hnum) sess hmem
    rfl st.notes false
  unfold deleteNote
  rw [if_neg (fun h => hne h.1)]
  simp only [hscan]

theorem listNotes_of_session (st : Store) (hnodup : (st.sessions.map Session.ID).Nodup)
    (hne : ∀ x ∈ st.sessions, x.ID ≠ "") (sess : Session) (hmem : sess ∈ st.sessions) :
    listNotes st sess.ID none
      = (st, Response.notes (st.notes.filter (fun note => decide (note.UserID = sess.UserID)))) := by
  unfold listNotes
  rw [if_neg (hne sess hmem)]
  simp only [findSession_of_mem st.sessions hnodup sess hmem, collectNotes_eq_filter]

theorem listNotes_error (st : Store) (sid : String) (e : String) :
    (listNotes st sid (some e)).2.code = 400 := by
  unfold listNotes
  split <;> rfl

theorem listNotes_decode_error (st st2 : Store) (sid : String) (e : String) :
    (listNotes st2 sid (some e)).2 = (listNotes st sid (some e)).2 := by
  unfold listNotes
  split <;> rfl

theorem reachable_twoUserStore : Reachable twoUserStore := ⟨twoUserRequests, by decide⟩

theorem run_sessions_extend (reqs : List Request) : ∀ st : Store,
    ∃ extra : List Session, (run st reqs).sessions = st.sessions ++ extra := by
  induction reqs with
  | nil => intro st; exact ⟨[], by simp [run_nil]⟩
  | cons r reqs ih =>
    intro st
    obtain ⟨extra, he⟩ := ih (step st r).1
    rw [run_cons, he]
    rcases step_sessions st r with h | ⟨u, h⟩
    · exact ⟨extra, by rw [h]⟩
    · exact ⟨_ :: extra, by rw [h, List.append_assoc]; rfl⟩

theorem login_sid (st st1 : Store) (email password : String) (err : Option String)
    (s : String) (hlogin : login st email password err = (st1, Response.sid s)) :
    s = itoa (st.sessions.length + 1) ∧
    st1 = Store.mk st.users st.notes
      (st.sessions ++ [Session.mk s (findUser st.users email password).ID true]) := by
  unfold login at hlogin
  split at hlogin
  · simp at hlogin
  · cases err with
    | some e => simp at hlogin
    | none =>
      simp only at hlogin
      split at hlogin
      · simp at hlogin
      · simp only [Prod.mk.injEq, Response.sid.injEq] at hlogin
        obtain ⟨h1, h2⟩ := hlogin
        subst h2
        exact ⟨rfl, h1.symm⟩

theorem reachable_oneUserStore : Reachable oneUserStore :=
  ⟨[Request.signup (User.mk 0 "a" "a@x.com" "p") none], by decide⟩

theorem findSession_of_first (sessions : List Session) (sid : String)
    (before : List Session) (sess : Session) (after : List Session)
    (hsplit : sessions = before ++ sess :: after) (hbefore : ∀ x ∈ before, x.ID ≠ sid)
    (hid : sess.ID = sid) : findSession sessions sid = (sess.UserID, true) := by
  subst hid
  rw [hsplit]
  exact findSession_first before sess after hbefore

theorem reachable_nodup (st : Store) (hst : Reachable st) :
    (st.sessions.map Session.ID).Nodup :=
  sessionsNumbered_nodup _ (reachable_sessionsNumbered st hst)

theorem createNote_found (st : Store) (sid : String) (u : Nat) (t : String)
    (hsid : sid ≠ "") (hf : findSession st.sessions sid = (u, true)) :
    createNote st sid t none
      = (Store.mk st.users (st.notes ++ [Note.mk (uint32 (st.notes.length + 1)) t u])
          st.sessions,
         Response.id (uint32 (st.notes.length + 1))) := by
  unfold createNote
  rw [if_neg hsid]
  simp only [hf]

theorem reachable_loggedInStore : Reachable loggedInStore :=
  ⟨[Request.signup (User.mk 0 "a" "a@x.com" "p") none, Request.login "a@x.com" "p" none],
   by decide⟩

theorem reachable_storeWithNotes (n : Nat) : Reachable (storeWithNotes n) :=
  reachable_run loggedInStore reachable_loggedInStore _

theorem storeWithNotes_succ (n : Nat) :
    storeWithNotes (n + 1) = (createNote (storeWithNotes n) "1" "hi" none).1 := by
  unfold storeWithNotes
  rw [List.replicate_succ', run_append]
  rfl

theorem storeWithNotes_shape (n : Nat) :
    (storeWithNotes n).sessions = [Session.mk "1" 1 true] ∧
    (storeWithNotes n).notes.length = n := by
  induction n with
  | zero => exact ⟨rfl, rfl⟩
  | succ n ih =>
    have hf : findSession (storeWithNotes n).sessions "1" = (1, true) := by
      rw [ih.1]; rfl
    rw [storeWithNotes_succ, createNote_found (storeWithNotes n) "1" 1 "hi" (by decide) hf]
    exact ⟨ih.1, by simp [ih.2]⟩

/-! ## The user scan -/

theorem findUser_none (users : List User) (email password : String)
    (h : ∀ user ∈ users, ¬ (user.Email = email ∧ user.Password = password)) :
    findUser users email password = User.mk 0 "" "" "" := by
  induction users with
  | nil => rfl
  | cons user rest ih =>
    simp only [findUser, h user (List.mem_cons_self _ _), if_false]
    exact ih (fun x hx => h x (List.mem_cons_of_mem _ hx))

theorem findUser_first (before : List User) (user : User) (after : List User)
    (email password : String)
    (hbefore : ∀ x ∈ before, ¬ (x.Email = email ∧ x.Password = password))
    (hmatch : user.Email = email ∧ user.Password = password) :
    findUser (before ++ user :: after) email password = user := by
  induction before with
  | nil => simp [findUser, hmatch]
  | cons x rest ih =>
    simp only [List.cons_append, findUser, hbefore x (List.mem_cons_self _ _), if_false]
    exact ih (fun y hy => hbefore y (List.mem_cons_of_mem _ hy))

theorem first_match_split (users : List User) (email password : String)
    (hex : ∃ user ∈ users, user.Email = email ∧ user.Password = password) :
    ∃ before user after, users = before ++ user :: after ∧
      (∀ x ∈ before, ¬ (x.Email = email ∧ x.Password = password)) ∧
      user.Email = email ∧ user.Password = password := by
  induction users with
  | nil => simp at hex
  | cons x rest ih =>
    by_cases hx : x.Email = email ∧ x.Password = password
    · exact ⟨[], x, rest, by simp, by simp, hx⟩
    · have hrest : ∃ user ∈ rest, user.Email = email ∧ user.Password = password := by
        obtain ⟨user, hmem, hm⟩ := hex
        rcases List.mem_cons.mp hmem with rfl | hmem
        · exact absurd hm hx
        · exact ⟨user, hmem, hm⟩
      obtain ⟨before, user, after, hs, hb, hm⟩ := ih hrest
      refine ⟨x :: before, user, after, by simp [hs], ?_, hm⟩
      intro y hy
      rcases List.mem_cons.mp hy with rfl | hy
      · exact hx
      · exact hb y hy

theorem reachable_storeWithUsers (n : Nat) : Reachable (storeWithUsers n) :=
  ⟨_, rfl⟩

theorem reachable_storeWithLastUser (n : Nat) : Reachable (storeWithLastUser n) :=
  reachable_run (storeWithUsers n) (reachable_storeWithUsers n)
    [Request.signup (User.mk 0 "z" "z@x.com" "q") none]

theorem storeWithUsers_succ (n : Nat) :
    storeWithUsers (n + 1)
      = (signup (storeWithUsers n) (User.mk 0 "a" "a@x.com" "p") none).1 := by
  unfold storeWithUsers
  rw [List.replicate_succ', run_append]
  rfl

theorem signup_accepted (st : Store) (newUser : User)
    (h : ¬ (newUser.Name = "" ∧ newUser.Email = "" ∧ newUser.Password = "")) :
    signup st newUser none
      = (Store.mk (st.users ++ [User.mk (uint32 (st.users.length + 1)) newUser.Name
          newUser.Email newUser.Password]) st.notes st.sessions,
         Response.status 200) := by
  unfold signup
  rw [if_neg h]

theorem storeWithUsers_shape (n : Nat) :
    (storeWithUsers n).users.length = n ∧
    (storeWithUsers n).sessions = [] ∧
    ∀ user ∈ (storeWithUsers n).users, user.Email = "a@x.com" := by
  induction n with
  | zero => exact ⟨rfl, rfl, by simp [storeWithUsers, run, Store.empty]⟩
  | succ n ih =>
    rw [storeWithUsers_succ, signup_accepted _ _ (by decide)]
    refine ⟨by simp [ih.1], ih.2.1, ?_⟩
    intro user huser
    rcases List.mem_append.mp huser with h | h
    · exact ih.2.2 user h
    · rw [List.mem_singleton.mp h]

theorem storeWithLastUser_eq (n : Nat) :
    storeWithLastUser n
      = Store.mk ((storeWithUsers n).users ++ [User.mk (uint32 (n + 1)) "z" "z@x.com" "q"])
          (storeWithUsers n).notes (storeWithUsers n).sessions := by
  unfold storeWithLastUser
  rw [signup_accepted _ _ (by decide), (storeWithUsers_shape n).1]

theorem uint32_wraps : uint32 (4294967295 + 1) = 0 := by
  unfold uint32; norm_num

/-! ## Positions and ids -/

theorem usersNumbered_get (users : List User) (h : UsersNumbered users) (i : Nat)
    (hi : i < users.length) : users[i].ID = uint32 (i + 1) := by
  have h1 : (users.map User.ID)[i]? = ((List.range users.length).map
      (fun i => uint32 (i + 1)))[i]? := by rw [h]
  simpa [List.getElem?_map, List.getElem?_range, hi] using h1

theorem sessionsNumbered_get (sessions : List Session) (h : SessionsNumbered sessions)
    (i : Nat) (hi : i < sessions.length) : sessions[i].ID = itoa (i + 1) := by
  have h1 : (sessions.map Session.ID)[i]? = ((List.range sessions.length).map
      (fun i => itoa (i + 1)))[i]? := by rw [h]
  simpa [List.getElem?_map, List.getElem?_range, hi] using h1

theorem usersNumbered_nodup (users : List User) (h : UsersNumbered users)
    (hlen : users.length < 2 ^ 32) : (users.map User.ID).Nodup := by
  rw [h]
  refine (List.nodup_range _).map_on ?_
  intro a ha b hb hab
  rw [List.mem_range] at ha hb
  unfold uint32 at hab
  rw [Nat.mod_eq_of_lt (by omega), Nat.mod_eq_of_lt (by omega)] at hab
  omega

/-! ## Note numbering without removals -/

theorem step_notes (st : Store) (r : Request) :
    (step st r).1.notes = st.notes ∨
    (∃ (t : String) (u : Nat), (step st r).1.notes
      = st.notes ++ [Note.mk (uint32 (st.notes.length + 1)) t u]) ∨
    removesNote st r = true := by
  cases r with
  | signup newUser err =>
    left; rcases signup_effect st newUser err with h | h <;> simp [step, h]
  | login email password err =>
    left; rcases login_effect st email password err with h | h <;> simp [step, h]
  | listNotes sid err => left; simp [step, listNotes_store]
  | createNote sid note err =>
    rcases createNote_effect st sid note err with h | ⟨u, h⟩
    · left; simp [step, h]
    · right; left; exact ⟨note, u, by simp [step, h]⟩
  | deleteNote sid id err =>
    by_cases h : (deleteNote st sid id err).1.notes = st.notes
    · left; simpa [step] using h
    · right; right; simp [removesNote, h]

theorem notesNumbered_append (notes : List Note) (h : NotesNumbered notes) (t : String)
    (u : Nat) : NotesNumbered (notes ++ [Note.mk (uint32 (notes.length + 1)) t u]) := by
  unfold NotesNumbered at *
  simp [List.range_succ, h]

theorem neverRemoves_numbered (reqs : List Request) : ∀ st : Store,
    NotesNumbered st.notes → neverRemoves st reqs = true →
    NotesNumbered (run st reqs).notes := by
  induction reqs with
  | nil => intro st h _; exact h
  | cons r reqs ih =>
    intro st h hnever
    simp only [neverRemoves, Bool.and_eq_true, Bool.not_eq_true'] at hnever
    rw [run_cons]
    refine ih _ ?_ hnever.2
    rcases step_notes st r with hs | ⟨t, u, hs⟩ | hs
    · rw [hs]; exact h
    · rw [hs]; exact notesNumbered_append _ h t u
    · rw [hnever.1] at hs; exact absurd hs (by decide)

theorem notesNumbered_get (notes : List Note) (h : NotesNumbered notes) (i : Nat)
    (hi : i < notes.length) : notes[i].ID = uint32 (i + 1) := by
  have h1 : (notes.map Note.ID)[i]? = ((List.range notes.length).map
      (fun i => uint32 (i + 1)))[i]? := by rw [h]
  simpa [List.getElem?_map, List.getElem?_range, hi] using h1

theorem notesNumbered_increasing (notes : List Note) (h : NotesNumbered notes)
    (hlen : notes.length < 2 ^ 32) : (notes.map Note.ID).Pairwise (fun a b => a < b) := by
  rw [h, List.pairwise_map]
  refine List.Pairwise.imp_of_mem ?_ (List.pairwise_lt_range _)
  intro a b ha hb hab
  rw [List.mem_range] at ha hb
  unfold uint32
  rw [Nat.mod_eq_of_lt (by omega), Nat.mod_eq_of_lt (by omega)]
  omega

theorem neverRemoves_creates (n : Nat) : ∀ st : Store,
    neverRemoves st (List.replicate n (Request.createNote "1" "hi" none)) = true := by
  induction n with
  | zero => intro st; rfl
  | succ n ih =>
    intro st
    rw [List.replicate_succ]
    simp only [neverRemoves, removesNote, Bool.not_false, Bool.true_and]
    exact ih _

theorem run_notesRequests (n : Nat) : run Store.empty (notesRequests n) = storeWithNotes n := by
  unfold notesRequests storeWithNotes
  rw [run_append]
  have : run Store.empty [Request.signup (User.mk 0 "a" "a@x.com" "p") none,
      Request.login "a@x.com" "p" none] = loggedInStore := by decide
  rw [this]

theorem neverRemoves_notesRequests (n : Nat) :
    neverRemoves Store.empty (notesRequests n) = true := by
  unfold notesRequests
  simp only [List.cons_append, List.nil_append, neverRemoves, removesNote, Bool.not_false,
    Bool.true_and]
  exact neverRemoves_creates n _

theorem storeWithNotes_last (n : Nat) :
    (storeWithNotes (n + 1)).notes[n]? = some (Note.mk (uint32 (n + 1)) "hi" 1) := by
  have hshape := storeWithNotes_shape n
  have hf : findSession (storeWithNotes n).sessions "1" = (1, true) := by
    rw [hshape.1]; rfl
  rw [storeWithNotes_succ, createNote_found (storeWithNotes n) "1" 1 "hi" (by decide) hf]
  simp only [hshape.2]
  rw [List.getElem?_append_right (by rw [hshape.2])]
  simp [hshape.2]

/-! ## Rejected requests -/

theorem deleteScan_not_found (sessions : List Session) (sid : String) (id : Nat) :
    ∀ (notes : List Note) (b : Bool), (deleteScan sessions sid id notes b).2 = false →
    (deleteScan sessions sid id notes b).1 = notes ∧ b = false := by
  induction sessions with
  | nil => intro notes b h; exact ⟨rfl, h⟩
  | cons sess rest ih =>
    intro notes b h
    by_cases hs : sess.ID = sid
    · simp only [deleteScan, hs, if_true] at h
      exact absurd (ih _ true h).2 (by decide)
    · simp only [deleteScan, hs, if_false] at h ⊢
      exact ih notes b h

theorem signup_rejected (st : Store) (newUser : User) (err : Option String)
    (h : (signup st newUser err).2.code ≠ 200) : (signup st newUser err).1 = st := by
  unfold signup at h ⊢
  split
  · rfl
  · rename_i hne
    rw [if_neg hne] at h
    cases err with
    | some e => rfl
    | none => exact absurd rfl h

theorem login_rejected (st : Store) (email password : String) (err : Option String)
    (h : (login st email password err).2.code ≠ 200) :
    (login st email password err).1 = st := by
  unfold login at h ⊢
  split
  · rfl
  · rename_i hne
    rw [if_neg hne] at h
    cases err with
    | some e => rfl
    | none =>
      simp only at h ⊢
      split
      · rfl
      · rename_i hid
        rw [if_neg hid] at h
        exact absurd rfl h

theorem createNote_rejected (st : Store) (sid note : String) (err : Option String)
    (h : (createNote st sid note err).2.code ≠ 200) :
    (createNote st sid note err).1 = st := by
  unfold createNote at h ⊢
  split
  · rfl
  · rename_i hne
    rw [if_neg hne] at h
    cases err with
    | some e => rfl
    | none =>
      simp only at h ⊢
      split
      · rfl
      · rename_i u hf
        rw [hf] at h
        exact absurd rfl h

theorem deleteNote_rejected (st : Store) (sid : String) (id : Nat) (err : Option String)
    (h : (deleteNote st sid id err).2.code ≠ 200) :
    (deleteNote st sid id err).1 = st := by
  unfold deleteNote at h ⊢
  split
  · rfl
  · rename_i hne
    rw [if_neg hne] at h
    cases err with
    | some e => rfl
    | none =>
      simp only at h ⊢
      split
      · rename_i notes hscan
        have := deleteScan_not_found st.sessions sid id st.notes false
          (by rw [hscan])
        rw [hscan] at this
        simp only at this
        rw [this.1]
      · rename_i notes hscan
        rw [hscan] at h
        exact absurd rfl h

/-! ## Referential integrity -/

theorem findUser_mem (users : List User) (email password : String)
    (h : (findUser users email password).ID ≠ 0) : findUser users email password ∈ users := by
  induction users with
  | nil => exact absurd rfl h
  | cons user rest ih =>
    by_cases hm : user.Email = email ∧ user.Password = password
    · simp [findUser, hm]
    · simp only [findUser, hm, if_false] at h ⊢
      exact List.mem_cons_of_mem _ (ih h)

theorem login_effect_found (st : Store) (email password : String) (err : Option String) :
    (login st email password err).1 = st ∨
    ((findUser st.users email password).ID ≠ 0 ∧
     (login st email password err).1 = Store.mk st.users st.notes (st.sessions ++
      [Session.mk (itoa (st.sessions.length + 1)) (findUser st.users email password).ID
        true])) := by
  unfold login
  split
  · left; rfl
  · cases err
    · simp only
      split
      · left; rfl
      · rename_i hid; right; exact ⟨hid, rfl⟩
    · left; rfl

theorem createNote_effect_found (st : Store) (sid note : String) (err : Option String) :
    (createNote st sid note err).1 = st ∨
    ∃ userID, findSession st.sessions sid = (userID, true) ∧
      (createNote st sid note err).1 = Store.mk st.users
        (st.notes ++ [Note.mk (uint32 (st.notes.length + 1)) note userID]) st.sessions := by
  unfold createNote
  split
  · left; rfl
  · cases err
    · simp only
      split
      · left; rfl
      · rename_i u hf; right; exact ⟨u, hf, rfl⟩
    · left; rfl

theorem removeNote_subset (notes : List Note) (id userID : Nat) :
    ∀ x ∈ removeNote notes id userID, x ∈ notes := by
  intro x hx
  rcases removeNote_split notes id userID with ⟨_, heq⟩ | ⟨b, y, a, hs, _, _, _, heq⟩
  · rwa [heq] at hx
  · rw [heq] at hx
    rw [hs]
    rcases List.mem_append.mp hx with h | h
    · exact List.mem_append_left _ h
    · exact List.mem_append_right _ (List.mem_cons_of_mem _ h)

theorem deleteScan_subset (sessions : List Session) (sid : String) (id : Nat) :
    ∀ (notes : List Note) (b : Bool), ∀ x ∈ (deleteScan sessions sid id notes b).1,
      x ∈ notes := by
  induction sessions with
  | nil => intro notes b x hx; exact hx
  | cons sess rest ih =>
    intro notes b x hx
    by_cases hs : sess.ID = sid
    · simp only [deleteScan, hs, if_true] at hx
      exact removeNote_subset notes id sess.UserID x (ih _ true x hx)
    · simp only [deleteScan, hs, if_false] at hx
      exact ih notes b x hx

theorem step_referential (st : Store) (r : Request) (h : Referential st) :
    Referential (step st r).1 := by
  obtain ⟨hsess, hnotes⟩ := h
  cases r with
  | signup newUser err =>
    rcases signup_effect st newUser err with he | he
    · simp only [step, he]; exact ⟨hsess, hnotes⟩
    · simp only [step, he]
      refine ⟨?_, hnotes⟩
      intro sess hmem
      obtain ⟨user, hu, hid⟩ := hsess sess hmem
      exact ⟨user, List.mem_append_left _ hu, hid⟩
  | login email password err =>
    rcases login_effect_found st email password err with he | ⟨hid, he⟩
    · simp only [step, he]; exact ⟨hsess, hnotes⟩
    · simp only [step, he]
      refine ⟨?_, ?_⟩
      · intro sess hmem
        rcases List.mem_append.mp hmem with hm | hm
        · exact hsess sess hm
        · rw [List.mem_singleton.mp hm]
          exact ⟨findUser st.users email password, findUser_mem _ _ _ hid, rfl⟩
      · intro note hmem
        obtain ⟨sess, hs, hu⟩ := hnotes note hmem
        exact ⟨sess, List.mem_append_left _ hs, hu⟩
  | listNotes sid err =>
    simp only [step, listNotes_store]; exact ⟨hsess, hnotes⟩
  | createNote sid note err =>
    rcases createNote_effect_found st sid note err with he | ⟨u, hf, he⟩
    · simp only [step, he]; exact ⟨hsess, hnotes⟩
    · simp only [step, he]
      refine ⟨hsess, ?_⟩
      intro x hmem
      rcases List.mem_append.mp hmem with hm | hm
      · exact hnotes x hm
      · rw [List.mem_singleton.mp hm]
        obtain ⟨before, sess, after, hsplit, _, _, hu⟩ := findSession_found _ _ _ hf
        exact ⟨sess, by rw [hsplit]; simp, hu⟩
  | deleteNote sid id err =>
    rcases deleteNote_effect st sid id err with he | he
    · simp only [step, he]; exact ⟨hsess, hnotes⟩
    · simp only [step, he]
      refine ⟨hsess, ?_⟩
      intro x hmem
      exact hnotes x (deleteScan_subset st.sessions sid id st.notes false x hmem)

theorem reachable_referential (st : Store) (h : Reachable st) : Referential st := by
  refine reachable_induction (P := Referential) ?_ step_referential st h
  exact ⟨by simp [Store.empty], by simp [Store.empty]⟩

/-! ## Claims -/

/-- C1: in every reachable store, for every stored session (of user `u`), every note id `n`
and every decode outcome, `deleteNote` with that session and `n` leaves the notes of every
other user `v ≠ u` as they were, in the same order, and `listNotes` through any session of
`v` answers after the delete what it answered before. -/
theorem deleteNote_keeps_other_users_notes (st : Store) (hst : Reachable st) (sess : Session)
    (hmem : sess ∈ st.sessions) (n : Nat) (err : Option String) (v : Nat)
    (hv : v ≠ sess.UserID) :
    (deleteNote st sess.ID n err).1.notes.filter (fun note => decide (note.UserID = v))
      = st.notes.filter (fun note => decide (note.UserID = v)) ∧
    ∀ other ∈ st.sessions, other.UserID = v → ∀ err2 : Option String,
      (listNotes (deleteNote st sess.ID n err).1 other.ID err2).2
        = (listNotes st other.ID err2).2 := by
  have hnum := reachable_sessionsNumbered st hst
  have hnodup := sessionsNumbered_nodup _ hnum
  have hscan := deleteScan_unique st.sessions sess.ID n hnodup sess hmem rfl st.notes false
  have hstore : (deleteNote st sess.ID n err).1 = st ∨ (deleteNote st sess.ID n err).1
      = Store.mk st.users (removeNote st.notes n sess.UserID) st.sessions := by
    rcases deleteNote_effect st sess.ID n err with h | h
    · exact Or.inl h
    · right; rw [h, hscan]
  rcases hstore with h | h
  · rw [h]
    exact ⟨rfl, fun _ _ _ _ => rfl⟩
  · rw [h]
    refine ⟨removeNote_filter_other st.notes n sess.UserID v hv, ?_⟩
    intro other hother hov err2
    cases err2 with
    | some e => exact listNotes_decode_error st _ other.ID e
    | none =>
      rw [listNotes_of_session st hnodup (sessionsNumbered_ne_empty _ hnum) other hother,
        listNotes_of_session (Store.mk st.users (removeNote st.notes n sess.UserID) st.sessions)
          hnodup (sessionsNumbered_ne_empty _ hnum) other hother]
      simp only [hov, removeNote_filter_other st.notes n sess.UserID v hv]

theorem deleteNote_keeps_other_users_notes_witness :
    Reachable twoUserStore ∧ Session.mk "1" 1 true ∈ twoUserStore.sessions ∧ (2 : Nat) ≠ 1 ∧
    ((deleteNote twoUserStore "1" 2 none).1.notes.filter (fun note => decide (note.UserID = 2))
      = twoUserStore.notes.filter (fun note => decide (note.UserID = 2)) ∧
    ∀ other ∈ twoUserStore.sessions, other.UserID = 2 → ∀ err2 : Option String,
      (listNotes (deleteNote twoUserStore "1" 2 none).1 other.ID err2).2
        = (listNotes twoUserStore other.ID err2).2) :=
  ⟨reachable_twoUserStore, by decide, by decide,
   deleteNote_keeps_other_users_notes twoUserStore reachable_twoUserStore
     (Session.mk "1" 1 true) (by decide) 2 none 2 (by decide)⟩

/-- C2: once `login`, in a reachable store, has answered with session id `s` for the user
it found (id `u`), then after every further sequence of handler calls the session scan of
`listNotes` and `createNote` on `s` still finds a session and yields `u`, every stored
session with id `s` is owned by `u` (none shadows or rebinds it), and the scan of
`deleteNote` on `s` finds the session and acts for `u`. -/
theorem session_resolves_forever (st : Store) (hst : Reachable st) (email password : String)
    (err : Option String) (st1 : Store) (s : String)
    (hlogin : login st email password err = (st1, Response.sid s)) (reqs : List Request) :
    Session.mk s (findUser st.users email password).ID true ∈ (run st1 reqs).sessions ∧
    findSession (run st1 reqs).sessions s = ((findUser st.users email password).ID, true) ∧
    (∀ sess ∈ (run st1 reqs).sessions, sess.ID = s →
      sess.UserID = (findUser st.users email password).ID) ∧
    ∀ (id : Nat) (notes : List Note),
      deleteScan (run st1 reqs).sessions s id notes false
        = (removeNote notes id (findUser st.users email password).ID, true) := by
  obtain ⟨_, hst1⟩ := login_sid st st1 email password err s hlogin
  have hreach1 : Reachable st1 := by
    have := reachable_run st hst [Request.login email password err]
    simpa [run, step, hlogin] using this
  have hreach : Reachable (run st1 reqs) := reachable_run st1 hreach1 reqs
  have hnodup := sessionsNumbered_nodup _ (reachable_sessionsNumbered _ hreach)
  obtain ⟨extra, hextra⟩ := run_sessions_extend reqs st1
  have hmem : Session.mk s (findUser st.users email password).ID true
      ∈ (run st1 reqs).sessions := by
    rw [hextra, hst1]; simp
  refine ⟨hmem, findSession_of_mem _ hnodup _ hmem, ?_, ?_⟩
  · intro sess hsess hid
    have : sess = Session.mk s (findUser st.users email password).ID true :=
      List.inj_on_of_nodup_map hnodup hsess hmem hid
    rw [this]
  · intro id notes
    exact deleteScan_unique _ s id hnodup _ hmem rfl notes false

theorem session_resolves_forever_witness :
    Reachable oneUserStore ∧
    login oneUserStore "a@x.com" "p" none = (loggedInStore, Response.sid "1") ∧
    findSession (run loggedInStore laterRequests).sessions "1"
      = ((findUser oneUserStore.users "a@x.com" "p").ID, true) ∧
    (findUser oneUserStore.users "a@x.com" "p").ID = 1 :=
  ⟨reachable_oneUserStore, by decide,
   (session_resolves_forever oneUserStore reachable_oneUserStore "a@x.com" "p" none
      loggedInStore "1" (by decide) laterRequests).2.1,
   by decide⟩

/-- C3: in every reachable store, for every stored session (id `s`, user `u`) and note id
`n`, a well-formed `deleteNote` answers 200 and leaves users and sessions as they were; the
new note list is the old one without the first note whose id is `n` and owner `u` (the
others keep their order), or the old list itself when no note has id `n` and owner `u`;
at most one note disappears. -/
theorem deleteNote_removes_first_owned (st : Store) (hst : Reachable st) (sess : Session)
    (hmem : sess ∈ st.sessions) (n : Nat) :
    ∃ notes : List Note,
      deleteNote st sess.ID n none
        = (Store.mk st.users notes st.sessions, Response.status 200) ∧
      (deleteNote st sess.ID n none).2.code = 200 ∧
      (((∀ note ∈ st.notes, ¬ (note.ID = n ∧ note.UserID = sess.UserID)) ∧
          notes = st.notes) ∨
       (∃ before note after, st.notes = before ++ note :: after ∧
          (∀ x ∈ before, ¬ (x.ID = n ∧ x.UserID = sess.UserID)) ∧
          note.ID = n ∧ note.UserID = sess.UserID ∧ notes = before ++ after)) ∧
      notes.length ≤ st.notes.length ∧ st.notes.length ≤ notes.length + 1 := by
  refine ⟨removeNote st.notes n sess.UserID, deleteNote_of_session st hst sess hmem n, ?_,
    removeNote_split st.notes n sess.UserID, removeNote_length st.notes n sess.UserID⟩
  rw [deleteNote_of_session st hst sess hmem n]
  rfl

theorem deleteNote_removes_first_owned_witness :
    Reachable demoStore ∧ Session.mk "1" 1 true ∈ demoStore.sessions ∧
    ∃ notes : List Note,
      deleteNote demoStore "1" 1 none
        = (Store.mk demoStore.users notes demoStore.sessions, Response.status 200) ∧
      (deleteNote demoStore "1" 1 none).2.code = 200 ∧
      (((∀ note ∈ demoStore.notes, ¬ (note.ID = 1 ∧ note.UserID = 1)) ∧
          notes = demoStore.notes) ∨
       (∃ before note after, demoStore.notes = before ++ note :: after ∧
          (∀ x ∈ before, ¬ (x.ID = 1 ∧ x.UserID = 1)) ∧
          note.ID = 1 ∧ note.UserID = 1 ∧ notes = before ++ after)) ∧
      notes.length ≤ demoStore.notes.length ∧ demoStore.notes.length ≤ notes.length + 1 :=
  ⟨reachable_demoStore, by decide,
   deleteNote_removes_first_owned demoStore reachable_demoStore (Session.mk "1" 1 true)
     (by decide) 1⟩

/-- C4: for every store and every non-empty session id `s` in a well-formed body:
(a) when the stored session that `s` matches (the first with id `s`) is owned by `u`,
`listNotes` answers 200 with exactly the stored notes owned by `u`, in store order;
(b) when the stored session ids are pairwise distinct, as in every reachable store, this
holds for any stored session with id `s`;
(c) the list is empty when `u` owns no note;
(d) when no stored session has id `s` the answer is 401;
(e) the store is never changed. -/
theorem listNotes_contract (st : Store) (s : String) (hs : s ≠ "") :
    (∀ before sess after, st.sessions = before ++ sess :: after →
      (∀ x ∈ before, x.ID ≠ s) → sess.ID = s →
      listNotes st s none = (st, Response.notes
        (st.notes.filter (fun note => decide (note.UserID = sess.UserID))))) ∧
    ((st.sessions.map Session.ID).Nodup → ∀ sess ∈ st.sessions, sess.ID = s →
      listNotes st s none = (st, Response.notes
        (st.notes.filter (fun note => decide (note.UserID = sess.UserID))))) ∧
    (∀ u : Nat, (∀ note ∈ st.notes, note.UserID ≠ u) →
      st.notes.filter (fun note => decide (note.UserID = u)) = []) ∧
    ((∀ sess ∈ st.sessions, sess.ID ≠ s) →
      listNotes st s none = (st, Response.error 401 "Unauthorized")) ∧
    (listNotes st s none).1 = st := by
  refine ⟨?_, ?_, ?_, ?_, listNotes_store st s none⟩
  · intro before sess after hsplit hbefore hid
    unfold listNotes
    rw [if_neg hs]
    simp only [findSession_of_first st.sessions s before sess after hsplit hbefore hid,
      collectNotes_eq_filter]
  · intro hnodup sess hmem hid
    unfold listNotes
    rw [if_neg hs]
    have := findSession_of_mem st.sessions hnodup sess hmem
    rw [hid] at this
    simp only [this, collectNotes_eq_filter]
  · intro u hu
    rw [List.filter_eq_nil_iff]
    intro note hnote
    simpa using hu note hnote
  · intro hno
    unfold listNotes
    rw [if_neg hs]
    simp only [findSession_none st.sessions s hno]

theorem listNotes_contract_witness :
    ("2" : String) ≠ "" ∧
    listNotes twoUserStore "2" none = (twoUserStore, Response.notes [Note.mk 2 "yo" 2]) ∧
    listNotes oneUserStore "2" none = (oneUserStore, Response.error 401 "Unauthorized") :=
  ⟨by decide,
   (listNotes_contract twoUserStore "2" (by decide)).1 [Session.mk "1" 1 true]
     (Session.mk "2" 2 true) [] rfl (by decide) rfl,
   (listNotes_contract oneUserStore "2" (by decide)).2.2.2.1 (by decide)⟩

/-- C5, as stated, fails: after 4294967295 notes have been created through session "1" the
store is reachable and the session valid, yet `createNote` answers with id 0, not with the
number of stored notes plus one (4294967296), because the id is a `uint32`. -/
theorem createNote_id_wraps :
    Reachable (storeWithNotes 4294967295) ∧
    Session.mk "1" 1 true ∈ (storeWithNotes 4294967295).sessions ∧
    (createNote (storeWithNotes 4294967295) "1" "hi" none).2 = Response.id 0 ∧
    (storeWithNotes 4294967295).notes.length + 1 = 4294967296 := by
  have hshape := storeWithNotes_shape 4294967295
  have hf : findSession (storeWithNotes 4294967295).sessions "1" = (1, true) := by
    rw [hshape.1]; rfl
  refine ⟨reachable_storeWithNotes _, ?_, ?_, ?_⟩
  · rw [hshape.1]; exact List.mem_singleton.mpr rfl
  · rw [createNote_found _ "1" 1 "hi" (by decide) hf, hshape.2]
    show Response.id (uint32 4294967296) = Response.id 0
    have : uint32 4294967296 = 0 := by unfold uint32; norm_num
    rw [this]
  · rw [hshape.2]

/-- C5 (amended): in every reachable store, for every stored session (id `s`, user `u`)
and every text `t`, a well-formed `createNote` answers 200 with
id = (number of stored notes + 1) mod 2^32, which is the number of stored notes + 1 while
that is below 2^32; it appends the single note (id, `t`, `u`) and leaves users and
sessions as they were; `listNotes` with `s` right after returns what it returned before
with that note appended at the end; the notes of every other user are untouched. -/
theorem createNote_contract (st : Store) (hst : Reachable st) (sess : Session)
    (hmem : sess ∈ st.sessions) (t : String) :
    createNote st sess.ID t none
      = (Store.mk st.users
          (st.notes ++ [Note.mk (uint32 (st.notes.length + 1)) t sess.UserID]) st.sessions,
         Response.id (uint32 (st.notes.length + 1))) ∧
    (createNote st sess.ID t none).2.code = 200 ∧
    (st.notes.length + 1 < 2 ^ 32 → uint32 (st.notes.length + 1) = st.notes.length + 1) ∧
    (∃ before : List Note,
      listNotes st sess.ID none = (st, Response.notes before) ∧
      (listNotes (createNote st sess.ID t none).1 sess.ID none).2
        = Response.notes
            (before ++ [Note.mk (uint32 (st.notes.length + 1)) t sess.UserID])) ∧
    (∀ v : Nat, v ≠ sess.UserID →
      (createNote st sess.ID t none).1.notes.filter (fun note => decide (note.UserID = v))
        = st.notes.filter (fun note => decide (note.UserID = v))) := by
  have hnum := reachable_sessionsNumbered st hst
  have hnodup := sessionsNumbered_nodup _ hnum
  have hne := sessionsNumbered_ne_empty _ hnum
  have hcreate := createNote_found st sess.ID sess.UserID t (hne sess hmem)
    (findSession_of_mem st.sessions hnodup sess hmem)
  refine ⟨hcreate, by rw [hcreate]; rfl, ?_, ?_, ?_⟩
  · intro hlt
    exact Nat.mod_eq_of_lt hlt
  · refine ⟨_, listNotes_of_session st hnodup hne sess hmem, ?_⟩
    rw [hcreate]
    have hl := listNotes_of_session (Store.mk st.users
      (st.notes ++ [Note.mk (uint32 (st.notes.length + 1)) t sess.UserID]) st.sessions)
      hnodup hne sess hmem
    simp only at hl ⊢
    rw [hl]
    simp [List.filter_append]
  · intro v hv
    rw [hcreate]
    have : ¬ sess.UserID = v := fun h => hv h.symm
    simp [List.filter_append, List.filter_cons, this]

theorem createNote_contract_witness :
    Reachable loggedInStore ∧ Session.mk "1" 1 true ∈ loggedInStore.sessions ∧
    createNote loggedInStore "1" "hi" none = (demoStore, Response.id 1) ∧
    (listNotes (createNote loggedInStore "1" "hi" none).1 "1" none).2
      = Response.notes [Note.mk 1 "hi" 1] :=
  ⟨reachable_loggedInStore, by decide,
   (createNote_contract loggedInStore reachable_loggedInStore (Session.mk "1" 1 true)
      (by decide) "hi").1,
   by decide⟩

/-- C6, as stated, fails: after 4294967296 signups the last account, whose credentials are
its own, has the id `uint32(4294967296) = 0`; the store is reachable and the credentials
are those of a stored user, yet `login` answers 401 and adds no session. -/
theorem login_rejects_wrapped_user :
    Reachable (storeWithLastUser 4294967295) ∧
    (∃ user ∈ (storeWithLastUser 4294967295).users,
      user.Email = "z@x.com" ∧ user.Password = "q") ∧
    login (storeWithLastUser 4294967295) "z@x.com" "q" none
      = (storeWithLastUser 4294967295, Response.error 401 "Unauthorized") := by
  have heq := storeWithLastUser_eq 4294967295
  rw [uint32_wraps] at heq
  have hfind : findUser (storeWithLastUser 4294967295).users "z@x.com" "q"
      = User.mk 0 "z" "z@x.com" "q" := by
    rw [heq]
    refine findUser_first _ _ [] _ _ ?_ ⟨rfl, rfl⟩
    intro x hx hc
    have := (storeWithUsers_shape 4294967295).2.2 x hx
    rw [this] at hc
    exact absurd hc.1 (by decide)
  refine ⟨reachable_storeWithLastUser _, ?_, ?_⟩
  · refine ⟨User.mk 0 "z" "z@x.com" "q", ?_, rfl, rfl⟩
    rw [heq]
    exact List.mem_append_right _ (List.mem_singleton.mpr rfl)
  · unfold login
    rw [if_neg (by decide)]
    simp only [hfind, if_true]

/-- C6 (amended): in every reachable store holding fewer than 2^32 users, for every
email/password pair, not both empty, that equals the email and password of a stored user,
a well-formed `login` answers 200 with sid = decimal string of (number of stored
sessions + 1) and appends exactly one session with that id, owned by the first user in
insertion order whose email and password both match; users and notes are unchanged. -/
theorem login_contract (st : Store) (hst : Reachable st) (hlen : st.users.length < 2 ^ 32)
    (email password : String) (hne : ¬ (email = "" ∧ password = ""))
    (hex : ∃ user ∈ st.users, user.Email = email ∧ user.Password = password) :
    ∃ before user after, st.users = before ++ user :: after ∧
      (∀ x ∈ before, ¬ (x.Email = email ∧ x.Password = password)) ∧
      user.Email = email ∧ user.Password = password ∧
      login st email password none
        = (Store.mk st.users st.notes
            (st.sessions ++ [Session.mk (itoa (st.sessions.length + 1)) user.ID true]),
           Response.sid (itoa (st.sessions.length + 1))) ∧
      (login st email password none).2.code = 200 := by
  obtain ⟨before, user, after, hsplit, hbefore, hmail, hpass⟩ :=
    first_match_split st.users email password hex
  have hfind : findUser st.users email password = user := by
    rw [hsplit]; exact findUser_first before user after email password hbefore ⟨hmail, hpass⟩
  have hid : user.ID ≠ 0 :=
    usersNumbered_id_ne_zero st.users (reachable_usersNumbered st hst) hlen user
      (by rw [hsplit]; simp)
  have hlogin : login st email password none
      = (Store.mk st.users st.notes
          (st.sessions ++ [Session.mk (itoa (st.sessions.length + 1)) user.ID true]),
         Response.sid (itoa (st.sessions.length + 1))) := by
    unfold login
    rw [if_neg hne]
    simp only [hfind, if_neg hid]
  exact ⟨before, user, after, hsplit, hbefore, hmail, hpass, hlogin, by rw [hlogin]; rfl⟩

theorem login_contract_witness :
    Reachable oneUserStore ∧ oneUserStore.users.length < 2 ^ 32 ∧
    ¬ (("a@x.com" : String) = "" ∧ ("p" : String) = "") ∧
    (∃ user ∈ oneUserStore.users, user.Email = "a@x.com" ∧ user.Password = "p") ∧
    ∃ before user after, oneUserStore.users = before ++ user :: after ∧
      (∀ x ∈ before, ¬ (x.Email = "a@x.com" ∧ x.Password = "p")) ∧
      user.Email = "a@x.com" ∧ user.Password = "p" ∧
      login oneUserStore "a@x.com" "p" none
        = (Store.mk oneUserStore.users oneUserStore.notes
            (oneUserStore.sessions
              ++ [Session.mk (itoa (oneUserStore.sessions.length + 1)) user.ID true]),
           Response.sid (itoa (oneUserStore.sessions.length + 1))) ∧
      (login oneUserStore "a@x.com" "p" none).2.code = 200 :=
  ⟨reachable_oneUserStore, by decide, by decide, by decide,
   login_contract oneUserStore reachable_oneUserStore (by decide) "a@x.com" "p" (by decide)
     (by decide)⟩

/-- C7, as stated, fails: on the empty store the pair of an empty email and an empty
password matches no stored user, yet `login` answers 400, not 401. -/
theorem login_empty_pair_is_bad_request :
    (∀ user ∈ Store.empty.users, ¬ (user.Email = "" ∧ user.Password = "")) ∧
    login Store.empty "" "" none = (Store.empty, Response.error 400 "Invalid request format") ∧
    (login Store.empty "" "" none).2.code ≠ 401 := by
  refine ⟨?_, by decide, by decide⟩
  intro user huser
  simp [Store.empty] at huser

/-- C7 (amended): for every store, the empty one included, and every email/password pair,
not both empty, that matches the email and password of no stored user, a well-formed
`login` answers 401 Unauthorized, creates no session and leaves the store unchanged. -/
theorem login_unregistered (st : Store) (email password : String)
    (hne : ¬ (email = "" ∧ password = ""))
    (hno : ∀ user ∈ st.users, ¬ (user.Email = email ∧ user.Password = password)) :
    login st email password none = (st, Response.error 401 "Unauthorized") ∧
    (login st email password none).2.code = 401 := by
  have hlogin : login st email password none = (st, Response.error 401 "Unauthorized") := by
    unfold login
    rw [if_neg hne]
    simp only [findUser_none st.users email password hno, if_true]
  exact ⟨hlogin, by rw [hlogin]; rfl⟩

theorem login_unregistered_witness :
    ¬ (("b@x.com" : String) = "" ∧ ("p" : String) = "") ∧
    (∀ user ∈ oneUserStore.users, ¬ (user.Email = "b@x.com" ∧ user.Password = "p")) ∧
    login oneUserStore "b@x.com" "p" none = (oneUserStore, Response.error 401 "Unauthorized") ∧
    (login oneUserStore "b@x.com" "p" none).2.code = 401 :=
  ⟨by decide, by decide,
   login_unregistered oneUserStore "b@x.com" "p" (by decide) (by decide)⟩

/-- C8, as stated, fails: in the store reached by 4294967295 signups a well-formed signup
with non-empty fields is accepted, but the appended user gets the id
`uint32(4294967296) = 0`, not the number of users before the call plus one. -/
theorem signup_id_wraps :
    signup (storeWithUsers 4294967295) (User.mk 0 "z" "z@x.com" "q") none
      = (Store.mk ((storeWithUsers 4294967295).users ++ [User.mk 0 "z" "z@x.com" "q"])
          (storeWithUsers 4294967295).notes (storeWithUsers 4294967295).sessions,
         Response.status 200) ∧
    (storeWithUsers 4294967295).users.length + 1 = 4294967296 := by
  have hlen := (storeWithUsers_shape 4294967295).1
  refine ⟨?_, by rw [hlen]⟩
  rw [signup_accepted _ _ (by decide), hlen, uint32_wraps]

/-- C8 (amended): for every store and every well-formed signup body: when name, email and
password are all empty, `signup` answers 400 and the store is unchanged; when at least one
of them is non-empty, `signup` answers 200 and appends exactly one user carrying the given
name, email and password, with id = (number of users before the call + 1) mod 2^32, which
is the number of users before the call + 1 while that is below 2^32; notes and sessions
are unchanged. -/
theorem signup_contract (st : Store) (newUser : User) :
    (newUser.Name = "" ∧ newUser.Email = "" ∧ newUser.Password = "" →
      signup st newUser none = (st, Response.error 400 "Invalid request format")) ∧
    (¬ (newUser.Name = "" ∧ newUser.Email = "" ∧ newUser.Password = "") →
      signup st newUser none
        = (Store.mk (st.users ++ [User.mk (uint32 (st.users.length + 1)) newUser.Name
            newUser.Email newUser.Password]) st.notes st.sessions,
           Response.status 200)) ∧
    (st.users.length + 1 < 2 ^ 32 → uint32 (st.users.length + 1) = st.users.length + 1) := by
  refine ⟨?_, signup_accepted st newUser, fun h => Nat.mod_eq_of_lt h⟩
  intro h
  unfold signup
  rw [if_pos h]

/-- C9: in every reachable store, for every well-formed delete body (sid, id):
`deleteNote` answers 400 exactly when sid is empty and id is 0; otherwise it answers 401
when no stored session has id sid and 200 when one has.  No stored session has the empty
id, so an empty sid with a non-zero id always yields 401. -/
theorem deleteNote_status (st : Store) (hst : Reachable st) (sid : String) (id : Nat) :
    ((deleteNote st sid id none).2.code = 400 ↔ (sid = "" ∧ id = 0)) ∧
    (¬ (sid = "" ∧ id = 0) → (∀ sess ∈ st.sessions, sess.ID ≠ sid) →
      (deleteNote st sid id none).2 = Response.error 401 "Unauthorized") ∧
    (¬ (sid = "" ∧ id = 0) → (∃ sess ∈ st.sessions, sess.ID = sid) →
      (deleteNote st sid id none).2 = Response.status 200) ∧
    (∀ sess ∈ st.sessions, sess.ID ≠ "") ∧
    (sid = "" → id ≠ 0 → (deleteNote st sid id none).2 = Response.error 401 "Unauthorized") := by
  have hnum := reachable_sessionsNumbered st hst
  have hne := sessionsNumbered_ne_empty _ hnum
  have h401 : ¬ (sid = "" ∧ id = 0) → (∀ sess ∈ st.sessions, sess.ID ≠ sid) →
      (deleteNote st sid id none).2 = Response.error 401 "Unauthorized" := by
    intro hv hno
    unfold deleteNote
    rw [if_neg hv]
    simp only [deleteScan_none st.sessions sid id hno]
  have h200 : ¬ (sid = "" ∧ id = 0) → (∃ sess ∈ st.sessions, sess.ID = sid) →
      (deleteNote st sid id none).2 = Response.status 200 := by
    rintro _ ⟨sess, hmem, rfl⟩
    rw [deleteNote_of_session st hst sess hmem id]
  refine ⟨⟨?_, ?_⟩, h401, h200, hne, ?_⟩
  · intro hcode
    by_contra hv
    by_cases hex : ∃ sess ∈ st.sessions, sess.ID = sid
    · rw [h200 hv hex] at hcode
      exact absurd hcode (by decide)
    · have hno : ∀ sess ∈ st.sessions, sess.ID ≠ sid :=
        fun sess hmem hc => hex ⟨sess, hmem, hc⟩
      rw [h401 hv hno] at hcode
      exact absurd hcode (by decide)
  · intro hv
    unfold deleteNote
    rw [if_pos hv]
    rfl
  · intro hsid hid
    refine h401 (fun hv => hid hv.2) ?_
    intro sess hmem hc
    exact hne sess hmem (hc.trans hsid)

theorem deleteNote_status_witness :
    Reachable demoStore ∧
    (deleteNote demoStore "" 0 none).2.code = 400 ∧
    (deleteNote demoStore "" 1 none).2 = Response.error 401 "Unauthorized" ∧
    (deleteNote demoStore "1" 0 none).2 = Response.status 200 :=
  ⟨reachable_demoStore,
   (deleteNote_status demoStore reachable_demoStore "" 0).1.mpr ⟨rfl, rfl⟩,
   (deleteNote_status demoStore reachable_demoStore "" 1).2.2.2.2 rfl (by decide),
   (deleteNote_status demoStore reachable_demoStore "1" 0).2.2.1 (by decide)
     ⟨Session.mk "1" 1 true, by decide, rfl⟩⟩

/-- C10: from the empty store, signup(a, a@x.com, p); login(a@x.com, p);
createNote("1", "hi"); listNotes("1"); deleteNote("1", 1); listNotes("1") answer, in order:
200; 200 with sid "1"; 200 with id 1; 200 with the notes [(1, "hi", 1)]; 200; 200 with the
empty notes list. -/
theorem scenario_responses :
    responses Store.empty
      [Request.signup (User.mk 0 "a" "a@x.com" "p") none,
       Request.login "a@x.com" "p" none,
       Request.createNote "1" "hi" none,
       Request.listNotes "1" none,
       Request.deleteNote "1" 1 none,
       Request.listNotes "1" none]
      = [Response.status 200, Response.sid "1", Response.id 1,
         Response.notes [Note.mk 1 "hi" 1], Response.status 200, Response.notes []] ∧
    (responses Store.empty
      [Request.signup (User.mk 0 "a" "a@x.com" "p") none,
       Request.login "a@x.com" "p" none,
       Request.createNote "1" "hi" none,
       Request.listNotes "1" none,
       Request.deleteNote "1" 1 none,
       Request.listNotes "1" none]).map Response.code = [200, 200, 200, 200, 200, 200] := by
  decide

/-- C11: in every reachable store with fewer than 2^32 - 1 users, the user at position `i`
(0-based) has id `i + 1`; user ids are pairwise distinct; no stored user has the sentinel
id 0; and the id given to the next accepted signup is the number of users + 1, whatever id
the decoded body carries. -/
theorem user_ids_follow_position (st : Store) (hst : Reachable st)
    (hlen : st.users.length < 2 ^ 32 - 1) :
    (∀ (i : Nat) (h : i < st.users.length), st.users[i].ID = i + 1) ∧
    (st.users.map User.ID).Nodup ∧
    (∀ user ∈ st.users, user.ID ≠ 0) ∧
    (∀ newUser : User, ¬ (newUser.Name = "" ∧ newUser.Email = "" ∧ newUser.Password = "") →
      (signup st newUser none).1.users
        = st.users ++ [User.mk (st.users.length + 1) newUser.Name newUser.Email
            newUser.Password]) := by
  have hnum := reachable_usersNumbered st hst
  have hlt : st.users.length < 2 ^ 32 := by omega
  refine ⟨?_, usersNumbered_nodup _ hnum hlt, usersNumbered_id_ne_zero _ hnum hlt, ?_⟩
  · intro i h
    rw [usersNumbered_get _ hnum i h]
    exact Nat.mod_eq_of_lt (by omega)
  · intro newUser hne
    rw [signup_accepted st newUser hne]
    have : uint32 (st.users.length + 1) = st.users.length + 1 :=
      Nat.mod_eq_of_lt (by omega)
    simp only [this]

theorem user_ids_follow_position_witness :
    Reachable twoUserStore ∧ twoUserStore.users.length < 2 ^ 32 - 1 ∧
    (∀ (i : Nat) (h : i < twoUserStore.users.length), twoUserStore.users[i].ID = i + 1) ∧
    (twoUserStore.users.map User.ID).Nodup ∧
    (∀ user ∈ twoUserStore.users, user.ID ≠ 0) :=
  ⟨reachable_twoUserStore, by decide,
   (user_ids_follow_position twoUserStore reachable_twoUserStore (by decide)).1,
   (user_ids_follow_position twoUserStore reachable_twoUserStore (by decide)).2.1,
   (user_ids_follow_position twoUserStore reachable_twoUserStore (by decide)).2.2.1⟩

/-- C12: in every reachable store the session at position `i` (0-based) has the id
`itoa (i + 1)`; session ids are pairwise distinct and non-empty; and every handler call,
hence every sequence of calls, keeps the stored sessions as they are, in place, and can
only append after them. -/
theorem session_ids_follow_position (st : Store) (hst : Reachable st) :
    (∀ (i : Nat) (h : i < st.sessions.length), st.sessions[i].ID = itoa (i + 1)) ∧
    (st.sessions.map Session.ID).Nodup ∧
    (∀ sess ∈ st.sessions, sess.ID ≠ "") ∧
    (∀ r : Request, ∃ extra : List Session,
      (step st r).1.sessions = st.sessions ++ extra) ∧
    (∀ reqs : List Request, ∃ extra : List Session,
      (run st reqs).sessions = st.sessions ++ extra) := by
  have hnum := reachable_sessionsNumbered st hst
  refine ⟨sessionsNumbered_get _ hnum, sessionsNumbered_nodup _ hnum,
    sessionsNumbered_ne_empty _ hnum, ?_, fun reqs => run_sessions_extend reqs st⟩
  intro r
  exact run_sessions_extend [r] st

theorem session_ids_follow_position_witness :
    Reachable twoUserStore ∧
    (∀ (i : Nat) (h : i < twoUserStore.sessions.length),
      twoUserStore.sessions[i].ID = itoa (i + 1)) ∧
    (twoUserStore.sessions.map Session.ID).Nodup :=
  ⟨reachable_twoUserStore,
   (session_ids_follow_position twoUserStore reachable_twoUserStore).1,
   (session_ids_follow_position twoUserStore reachable_twoUserStore).2.1⟩

/-- C13 fails on the code: after signup, login, two notes, the deletion of note 1 and one
more creation, the reachable store holds two notes with the same id 2, because the new id
is the current number of notes + 1. -/
theorem note_id_reused_after_delete :
    Reachable (run Store.empty reuseRequests) ∧
    (run Store.empty reuseRequests).notes = [Note.mk 2 "y" 1, Note.mk 2 "z" 1] ∧
    ¬ ((run Store.empty reuseRequests).notes.map Note.ID).Nodup :=
  ⟨⟨reuseRequests, rfl⟩, by decide, by decide⟩

/-- C15, as stated, fails: the requests `notesRequests 4294967296` contain no delete and
never remove a note, yet the note they leave at position 4294967295 has the id
`uint32(4294967296) = 0`, not 4294967296. -/
theorem note_position_id_wraps :
    neverRemoves Store.empty (notesRequests 4294967296) = true ∧
    (run Store.empty (notesRequests 4294967296)).notes[4294967295]?
      = some (Note.mk 0 "hi" 1) := by
  refine ⟨neverRemoves_notesRequests _, ?_⟩
  rw [run_notesRequests]
  have h := storeWithNotes_last 4294967295
  rw [uint32_wraps] at h
  exact h

/-- C15 (amended): in every store reached from the empty store by handler calls in which
`deleteNote` never removes a note, the note at position `i` (0-based) has the id
(i + 1) mod 2^32; while fewer than 2^32 notes are stored that id is `i + 1`, note ids are
strictly increasing in insertion order and pairwise distinct, and while the number of
notes + 1 is below 2^32 the id the next `createNote` hands out is carried by no stored
note. -/
theorem note_ids_follow_position (reqs : List Request)
    (hnever : neverRemoves Store.empty reqs = true) :
    (∀ (i : Nat) (h : i < (run Store.empty reqs).notes.length),
      (run Store.empty reqs).notes[i].ID = uint32 (i + 1)) ∧
    ((run Store.empty reqs).notes.length < 2 ^ 32 →
      (∀ (i : Nat) (h : i < (run Store.empty reqs).notes.length),
        (run Store.empty reqs).notes[i].ID = i + 1) ∧
      ((run Store.empty reqs).notes.map Note.ID).Pairwise (fun a b => a < b) ∧
      ((run Store.empty reqs).notes.map Note.ID).Nodup) ∧
    ((run Store.empty reqs).notes.length + 1 < 2 ^ 32 →
      ∀ note ∈ (run Store.empty reqs).notes,
        note.ID ≠ uint32 ((run Store.empty reqs).notes.length + 1)) := by
  have hnum : NotesNumbered (run Store.empty reqs).notes :=
    neverRemoves_numbered reqs Store.empty (by simp [NotesNumbered, Store.empty]) hnever
  refine ⟨notesNumbered_get _ hnum, ?_, ?_⟩
  · intro hlen
    have hinc := notesNumbered_increasing _ hnum hlen
    refine ⟨?_, hinc, ?_⟩
    · intro i h
      rw [notesNumbered_get _ hnum i h]
      exact Nat.mod_eq_of_lt (by omega)
    · exact hinc.imp (fun hab => Nat.ne_of_lt hab)
  · intro hlen note hmem hid
    have hm : note.ID ∈ (run Store.empty reqs).notes.map Note.ID :=
      List.mem_map_of_mem _ hmem
    rw [hnum] at hm
    obtain ⟨i, hi, hi2⟩ := List.mem_map.mp hm
    rw [List.mem_range] at hi
    rw [← hi2] at hid
    unfold uint32 at hid
    rw [Nat.mod_eq_of_lt (by omega), Nat.mod_eq_of_lt hlen] at hid
    omega

theorem note_ids_follow_position_witness :
    neverRemoves Store.empty twoUserRequests = true ∧
    (∀ (i : Nat) (h : i < (run Store.empty twoUserRequests).notes.length),
      (run Store.empty twoUserRequests).notes[i].ID = uint32 (i + 1)) ∧
    (run Store.empty twoUserRequests).notes = [Note.mk 1 "hi" 1, Note.mk 2 "yo" 2] :=
  ⟨by decide, (note_ids_follow_position twoUserRequests (by decide)).1, by decide⟩

/-- C16: in each of the five handlers the emptiness check comes before the decode-error
check. For every store and every decode outcome: when the emptiness predicate holds
(signup: name, email and password all empty; login: email and password both empty;
listNotes and createNote: sid empty; deleteNote: sid empty and id 0) the answer is 400
"Invalid request format", decode error or not; when it does not hold and decoding failed
with message `e`, the answer is 400 with message `e`; in both cases the store is
unchanged. -/
theorem emptiness_check_before_decode_error (st : Store) (err : Option String) (e : String) :
    (∀ newUser : User, newUser.Name = "" ∧ newUser.Email = "" ∧ newUser.Password = "" →
      signup st newUser err = (st, Response.error 400 "Invalid request format")) ∧
    (∀ newUser : User, ¬ (newUser.Name = "" ∧ newUser.Email = "" ∧ newUser.Password = "") →
      signup st newUser (some e) = (st, Response.error 400 e)) ∧
    login st "" "" err = (st, Response.error 400 "Invalid request format") ∧
    (∀ email password : String, ¬ (email = "" ∧ password = "") →
      login st email password (some e) = (st, Response.error 400 e)) ∧
    listNotes st "" err = (st, Response.error 400 "Invalid request format") ∧
    (∀ sid : String, sid ≠ "" → listNotes st sid (some e) = (st, Response.error 400 e)) ∧
    (∀ note : String,
      createNote st "" note err = (st, Response.error 400 "Invalid request format")) ∧
    (∀ sid note : String, sid ≠ "" →
      createNote st sid note (some e) = (st, Response.error 400 e)) ∧
    deleteNote st "" 0 err = (st, Response.error 400 "Invalid request format") ∧
    (∀ (sid : String) (id : Nat), ¬ (sid = "" ∧ id = 0) →
      deleteNote st sid id (some e) = (st, Response.error 400 e)) := by
  refine ⟨?_, ?_, ?_, ?_, ?_, ?_, ?_, ?_, ?_, ?_⟩
  · intro newUser h; unfold signup; rw [if_pos h]
  · intro newUser h; unfold signup; rw [if_neg h]
  · unfold login; rw [if_pos ⟨rfl, rfl⟩]
  · intro email password h; unfold login; rw [if_neg h]
  · unfold listNotes; rw [if_pos rfl]
  · intro sid h; unfold listNotes; rw [if_neg h]
  · intro note; unfold createNote; rw [if_pos rfl]
  · intro sid note h; unfold createNote; rw [if_neg h]
  · unfold deleteNote; rw [if_pos ⟨rfl, rfl⟩]
  · intro sid id h; unfold deleteNote; rw [if_neg h]

/-- C17: for every store and every request to any of the five handlers, when the answer
is 400 or 401 the store after the call (users, notes and sessions) is the store before
it. -/
theorem rejected_request_changes_nothing (st : Store) (r : Request)
    (h : (step st r).2.code = 400 ∨ (step st r).2.code = 401) :
    (step st r).1 = st ∧
    (step st r).1.users = st.users ∧ (step st r).1.notes = st.notes ∧
    (step st r).1.sessions = st.sessions := by
  have h200 : (step st r).2.code ≠ 200 := by
    rcases h with h | h <;> rw [h] <;> decide
  have hst : (step st r).1 = st := by
    cases r with
    | signup newUser err => exact signup_rejected st newUser err h200
    | login email password err => exact login_rejected st email password err h200
    | listNotes sid err => exact listNotes_store st sid err
    | createNote sid note err => exact createNote_rejected st sid note err h200
    | deleteNote sid id err => exact deleteNote_rejected st sid id err h200
  rw [hst]
  exact ⟨rfl, rfl, rfl, rfl⟩

theorem rejected_request_changes_nothing_witness :
    ((step demoStore (Request.deleteNote "7" 1 none)).2.code = 400 ∨
      (step demoStore (Request.deleteNote "7" 1 none)).2.code = 401) ∧
    (step demoStore (Request.deleteNote "7" 1 none)).1 = demoStore :=
  ⟨by decide,
   (rejected_request_changes_nothing demoStore (Request.deleteNote "7" 1 none)
      (by decide)).1⟩

/-- C18: in every reachable store the owner id of every stored session is the id of a
stored user, the owner id of every stored note is the owner id of a stored session, hence
the id of a stored user; and after any further handler call every session and every note
of the store is still owned by the id of a stored user. -/
theorem referential_integrity (st : Store) (hst : Reachable st) :
    (∀ sess ∈ st.sessions, ∃ user ∈ st.users, user.ID = sess.UserID) ∧
    (∀ note ∈ st.notes, ∃ sess ∈ st.sessions, sess.UserID = note.UserID) ∧
    (∀ note ∈ st.notes, ∃ user ∈ st.users, user.ID = note.UserID) ∧
    (∀ r : Request,
      (∀ sess ∈ (step st r).1.sessions, ∃ user ∈ (step st r).1.users,
        user.ID = sess.UserID) ∧
      (∀ note ∈ (step st r).1.notes, ∃ user ∈ (step st r).1.users,
        user.ID = note.UserID)) := by
  have key : ∀ s : Store, Referential s →
      ∀ note ∈ s.notes, ∃ user ∈ s.users, user.ID = note.UserID := by
    intro s hs note hmem
    obtain ⟨sess, hsess, hu⟩ := hs.2 note hmem
    obtain ⟨user, huser, hid⟩ := hs.1 sess hsess
    exact ⟨user, huser, hid.trans hu⟩
  have href := reachable_referential st hst
  refine ⟨href.1, href.2, key st href, ?_⟩
  intro r
  have hnext := step_referential st r href
  exact ⟨hnext.1, key _ hnext⟩

theorem referential_integrity_witness :
    Reachable twoUserStore ∧
    (∀ sess ∈ twoUserStore.sessions, ∃ user ∈ twoUserStore.users, user.ID = sess.UserID) ∧
    (∀ note ∈ twoUserStore.notes, ∃ sess ∈ twoUserStore.sessions,
      sess.UserID = note.UserID) :=
  ⟨reachable_twoUserStore,
   (referential_integrity twoUserStore reachable_twoUserStore).1,
   (referential_integrity twoUserStore reachable_twoUserStore).2.1⟩

/-- C14 fails on the code: `signup` reads `len(users)` before it takes `userMutex`, so its
body is not guarded (it would be with the lock taken first); one goroutine running the body alone does what the handler does, but
when two accepted signups both run the id assignment before either appends, both stored
users get the id 1, whereas served one after the other they get 1 and 2. -/
theorem signup_reads_users_unlocked :
    guarded false signupBody = false ∧
    guarded false [SignupStmt.lock, SignupStmt.assignID, SignupStmt.appendUser,
      SignupStmt.unlock] = true ∧
    (∀ (st : Store) (newUser : User),
      ¬ (newUser.Name = "" ∧ newUser.Email = "" ∧ newUser.Password = "") →
      poolRun (Shared.mk st false, [SignupThread.mk newUser signupBody]) [0, 0, 0, 0]
        = (Shared.mk (signup st newUser none).1 false,
           [SignupThread.mk (User.mk (uint32 (st.users.length + 1)) newUser.Name
              newUser.Email newUser.Password) []])) ∧
    (poolRun twoSignups [0, 1, 0, 0, 0, 1, 1, 1]).1.store.users
      = [User.mk 1 "a" "a@x.com" "p", User.mk 1 "b" "b@x.com" "q"] ∧
    (poolRun twoSignups [0, 1, 0, 0, 0, 1, 1, 1]).2
      = [SignupThread.mk (User.mk 1 "a" "a@x.com" "p") [],
         SignupThread.mk (User.mk 1 "b" "b@x.com" "q") []] ∧
    (poolRun twoSignups [0, 0, 0, 0, 1, 1, 1, 1]).1.store.users
      = [User.mk 1 "a" "a@x.com" "p", User.mk 2 "b" "b@x.com" "q"] := by
  refine ⟨by decide, by decide, ?_, by decide, by decide, by decide⟩
  intro st newUser hne
  rw [signup_accepted st newUser hne]
  rfl

end NotesApp
